import Mathlib

/-!
Verification of the LyX index-inset core (`src/insets/InsetIndex.cpp`):
the index-entry micro-syntax codec (`parseItem`, `extractSubentries`),
the DocBook output transform of `InsetIndex::docbook` together with its
per-context range-identifier state, the XHTML print-index tree builder of
`InsetPrintIndex::xhtml`, and the parameter serialization of
`InsetIndexParams::write`/`read`.

Strings are modelled as lists of characters (`DocString`), mirroring the
C++ `docstring` operations used by the source (`find`, `substr`, `erase`,
`trim`, `getVectorFromString`).  Output streams are modelled as lists of
`XMLItem` events, recording exactly what the source writes to the
`XMLStream`.
-/

namespace LyxIndex

/-- Characters of a C++ `docstring`. -/
abbrev DocString := List Char

/-- View a Lean string literal as a `DocString`. -/
def dS (s : String) : DocString := s.toList

/-- The single-quote character (by code point). -/
def sq : Char := Char.ofNat 39

/-- The C++ `docstring::find(pat)`: index of the first occurrence of `pat`
in `s`, `none` standing for `npos`. -/
def findSub (s pat : DocString) : Option Nat :=
  match s with
  | [] => if pat.isPrefixOf [] then some 0 else none
  | c :: tl =>
    if pat.isPrefixOf (c :: tl) then some 0
    else (findSub tl pat).map (· + 1)

/-- The C++ `docstring::find(pat, start)`: first occurrence at or after
`start`. -/
def findSubFrom (s pat : DocString) (start : Nat) : Option Nat :=
  (findSub (s.drop start) pat).map (· + start)

/-- Whether `pat` occurs in `s` (`find(pat) != npos`). -/
def containsSub (s pat : DocString) : Bool := (findSub s pat).isSome

/-- Space test used by the support library's `trim` (default character
set `" "`). -/
def isSpaceChar (c : Char) : Bool := c == ' '

/-- Strip leading spaces (support library `ltrim` with default `" "`). -/
def ltrimS (s : DocString) : DocString := s.dropWhile isSpaceChar

/-- Strip trailing spaces (support library `rtrim` with default `" "`). -/
def rtrimS (s : DocString) : DocString := (s.reverse.dropWhile isSpaceChar).reverse

/-- Strip surrounding spaces (support library `trim` with default `" "`). -/
def trimS (s : DocString) : DocString := ltrimS (rtrimS s)

/-- Modelled from the spec: the loop body of the support library's
`getVectorFromString` (not under `src/`), which repeatedly splits the
remaining keys at the delimiter, trims each piece, and keeps empty pieces
only when `keepempty` is set; the final piece is pushed after `ltrim`.
Fuel-driven so that the definition is total; the initial fuel
(the string length) always suffices because every step consumes at least
one character for the nonempty delimiters the source passes. -/
def gvfsGo (delim : DocString) (keepempty : Bool) : Nat → DocString → List DocString
  | 0, keys => [ltrimS keys]
  | fuel + 1, keys =>
    match findSub keys delim with
    | none => [ltrimS keys]
    | some idx =>
      let key := trimS (keys.take idx)
      let rest := gvfsGo delim keepempty fuel (keys.drop (idx + delim.length))
      if key.isEmpty && !keepempty then rest else key :: rest

/-- Modelled from the spec: the support library's `getVectorFromString`
(split on a delimiter into trimmed pieces, dropping empty pieces unless
`keepempty`; an empty input yields an empty vector; the whole string is
right-trimmed first). -/
def getVectorFromString (str delim : DocString) (keepempty : Bool) : List DocString :=
  if str.isEmpty then [] else gvfsGo delim keepempty str.length (rtrimS str)

/-- The anonymous-namespace helper `parseItem` of `InsetIndex.cpp`:
strip the sort key at the first `@` (keeping the part after `@` when
`for_output`, the part before it otherwise), then cut at the first `|`. -/
def parseItem (s : DocString) (forOutput : Bool) : DocString :=
  let s1 :=
    match findSub s (dS "@") with
    | some loc => if forOutput then s.drop (loc + 1) else s.take loc
    | none => s
  match findSub s1 (dS "|") with
  | some loc => s1.take loc
  | none => s1

/-- The anonymous-namespace helper `extractSubentries` of
`InsetIndex.cpp`: split the entry at the first two occurrences of the
three-character delimiter `" ! "`.  The out-parameters of the C++
function (initialised empty by the callers) are modelled as a returned
triple. -/
def extractSubentries (entry : DocString) : DocString × DocString × DocString :=
  if entry.isEmpty then ([], [], [])
  else
    match findSub entry (dS " ! ") with
    | none => (entry, [], [])
    | some loc =>
      let main := trimS (entry.take loc)
      let locend := loc + 3
      match findSubFrom entry (dS " ! ") locend with
      | none => (main, trimS (entry.drop locend), [])
      | some loc2 =>
        (main, trimS ((entry.drop locend).take (loc2 - locend)),
         trimS (entry.drop (loc2 + 3)))

/-- The parse operation of the spec's Entry Codec as realised by the
source: `extractSubentries` followed by `parseItem` on each field (this
is the composition used both by the `IndexEntry` constructor, with
`for_output = false`, and by the display path of
`InsetPrintIndex::xhtml`, with `for_output = true`). -/
def parseEntry (s : DocString) (forOutput : Bool) :
    DocString × DocString × DocString :=
  let (m, s1, s2) := extractSubentries s
  (parseItem m forOutput, parseItem s1 forOutput, parseItem s2 forOutput)

/-- A first-occurrence split, used to phrase claim C6's description of
the subentry split independently of the source's index arithmetic. -/
def splitFirstAt (s pat : DocString) : Option (DocString × DocString) :=
  (findSub s pat).map (fun i => (s.take i, s.drop (i + pat.length)))

/-- Claim C6's description of the subentry split, as amended: split on
the first occurrence of `" ! "` at most twice; when the delimiter is
present all produced segments are trimmed of surrounding space
characters; when it is absent the input itself is the main term,
unchanged. -/
def splitEntryClaim (e : DocString) : DocString × DocString × DocString :=
  match splitFirstAt e (dS " ! ") with
  | none => (e, [], [])
  | some (a, r) =>
    match splitFirstAt r (dS " ! ") with
    | none => (trimS a, trimS r, [])
    | some (b, c) => (trimS a, trimS b, trimS c)

/-! The DocBook output path (`InsetIndex::docbook`). -/

/-- One event written to the `XMLStream`: a start tag with its attribute
string, an end tag, a self-closing (compound) tag, escaped or raw
character data, a line break, or an inline output-error comment (what
the source writes with `ESCAPE_NONE` as `<!-- Output Error: ... -->`). -/
inductive XMLItem where
  | startTag (name attr : DocString)
  | endTag (name : DocString)
  | compTag (name attr : DocString)
  | text (s : DocString)
  | cr
  | comment (s : DocString)
deriving DecidableEq, Repr

/-- Whether an output event is an inline error comment. -/
def XMLItem.isComment : XMLItem → Bool
  | .comment _ => true
  | _ => false

/-- The C++ loop `while ((index = s.find(pat, index)) != npos)
s.erase(index, 1);`: repeatedly erase one character at the position of
the next occurrence of `pat`, resuming the search at that same position.
Fuel-driven (the string length suffices: every step erases a
character). -/
def eraseLoop (pat : DocString) : Nat → DocString → Nat → DocString
  | 0, s, _ => s
  | fuel + 1, s, start =>
    match findSubFrom s pat start with
    | none => s
    | some i => eraseLoop pat fuel (s.eraseIdx i) i

/-- Erase one character at every (left-to-right, restarting in place)
occurrence of `pat`, as the range- and brace-stripping loops of
`InsetIndex::docbook` do. -/
def eraseAllBar (s pat : DocString) : DocString := eraseLoop pat s.length s 0

/-- The bracket unescaping of the `see`/`seealso` branch: drop the
backslash of every `\{` and `\}`. -/
def unescapeBraces (c : DocString) : DocString :=
  eraseAllBar (eraseAllBar c ('\\' :: ['{'])) ('\\' :: ['}'])

/-- The text between the first `{` and the first `}` of `command`,
with the C++ `size_t`/`npos` arithmetic of
`command.substr(positionOpeningBracket + 1, positionClosingBracket -
positionOpeningBracket - 1)` made explicit for each combination of
missing brackets. -/
def bracketContent (c : DocString) : DocString :=
  match findSub c ['{'], findSub c ['}'] with
  | some o, some cl =>
    if cl < o + 1 then c.drop (o + 1) else (c.drop (o + 1)).take (cl - o - 1)
  | some o, none => c.drop (o + 1)
  | none, some cl => c.take cl
  | none, none => c

/-- The rest of `command` after the first closing bracket
(`command.substr(positionClosingBracket + 1)`, where `npos + 1 = 0`
yields the whole string back). -/
def afterBracket (c : DocString) : DocString :=
  match findSub c ['}'] with
  | some cl => c.drop (cl + 1)
  | none => c

/-- Modelled from the spec: `xml::cleanID`, the host's
identifier-sanitizing function (not part of this file); it is
deterministic — each call with the same argument produces the same legal
id.  It is modelled as the identity, i.e. the inputs at hand are taken
to be already legal ids. -/
def cleanID (s : DocString) : DocString := s

/-- The per-worker-context range-disambiguation state: the set of term
lists already seen as ranges (`QThreadStorage<set<docstring>>
tKnownTermLists`) and the counter (`QThreadStorage<int> tID`). -/
structure RangeState where
  known : List DocString
  ctr : Int
deriving DecidableEq, Repr

/-- The lazily initialised state of a fresh worker context. -/
def rangeStateInit : RangeState := ⟨[], 0⟩

/-- `std::set` insertion on the modelled term-list set. -/
def knownInsert (s : DocString) (l : List DocString) : List DocString :=
  if s ∈ l then l else s :: l

/-- The error comment for an `@\` in the entry. -/
def errAtBackslash (latexString : DocString) : XMLItem :=
  .comment (dS "Unsupported feature: an index entry contains an @\\. Complete entry: \"" ++
    latexString ++ dS "\"")

/-- The error comment for several comma-separated `see` targets. -/
def errSeveralSee (latexString : DocString) : XMLItem :=
  .comment (dS "Several index terms found as \"see\"! Only one is acceptable. Complete entry: \"" ++
    latexString ++ dS "\"")

/-- The error comment for leftover unsupported command text. -/
def errUnsupportedCmd (command latexString : DocString) : XMLItem :=
  .comment (dS "Unsupported feature: an index entry contains a | with an unsupported command, " ++
    command ++ dS ". Complete entry: \"" ++ latexString ++ dS "\"")

/-- The error comment for an entry with no index term. -/
def errNoTerm (latexString : DocString) : XMLItem :=
  .comment (dS "No index term found! Complete entry: \"" ++ latexString ++ dS "\"")

/-- The attribute `sortas='...'` put on the primary term element. -/
def sortasAttr (sortAs : DocString) : DocString :=
  dS "sortas=" ++ sq :: (sortAs ++ [sq])

/-- The `type="..."` attribute used for multi-index documents. -/
def typeAttr (useIndices : Bool) (paramIndex : DocString) : DocString :=
  if useIndices then dS " type=\"" ++ paramIndex ++ dS "\"" else []

/-- The attributes of a start-of-range `indexterm`. -/
def startRangeAttrs (indexType id : DocString) : DocString :=
  indexType ++ dS " class=\"startofrange\" xml:id=\"" ++ id ++ dS "\""

/-- The attributes of an end-of-range `indexterm`. -/
def endRangeAttrs (id : DocString) : DocString :=
  dS " class=\"endofrange\" startref=\"" ++ id ++ dS "\""

/-- `InsetIndex::docbook`.  `content` is the (externally produced) LaTeX
rendering of the inset's text, which the source trims and then parses;
`st` is the worker context's range state.  The returned list is the
sequence of events written to the `XMLStream`, and the second component
is the updated range state. -/
def docbook (useIndices : Bool) (paramIndex : DocString) (content : DocString)
    (st : RangeState) : List XMLItem × RangeState :=
  let latexString := trimS content
  let err1 : List XMLItem :=
    if containsSub latexString ('@' :: ['\\']) then [errAtBackslash latexString] else []
  let indexType := typeAttr useIndices paramIndex
  let (indexTerms0, command0) :=
    match findSub latexString (dS "|") with
    | none => (latexString, ([] : DocString))
    | some p => (latexString.take p, latexString.drop (p + 1))
  let sortingElements := getVectorFromString indexTerms0 (dS "@") false
  let (sortAs, indexTerms) :=
    match sortingElements with
    | [a, b] => (a, b)
    | _ => (([] : DocString), indexTerms0)
  let terms := getVectorFromString indexTerms (dS "!") false
  let hasStartRange := containsSub latexString ('|' :: ['('])
  let hasEndRange := containsSub latexString ('|' :: [')'])
  let command1 :=
    if hasStartRange || hasEndRange then
      let c1 := eraseAllBar command0 ('|' :: ['('])
      let c2 := eraseAllBar c1 ('|' :: [')'])
      match c2 with
      | '(' :: r => r
      | ')' :: r => r
      | c' => c'
    else command0
  let isSee := command1.take 3 == dS "see"
  let cU := if isSee then unescapeBraces command1 else command1
  let isSeealso := cU.take 7 == dS "seealso"
  let bracketed := bracketContent cU
  let see := if isSee && !isSeealso then bracketed else []
  let seeAlsoes :=
    if isSee && isSeealso then getVectorFromString bracketed (dS ",") false else []
  let err2 : List XMLItem :=
    if isSee && !isSeealso && containsSub bracketed (dS ",") then
      [errSeveralSee latexString]
    else []
  let command2 := if isSee then afterBracket cU else command1
  let err3 : List XMLItem :=
    if !command2.isEmpty then [errUnsupportedCmd command2 latexString] else []
  if terms.isEmpty && !hasEndRange then
    (err1 ++ err2 ++ err3 ++ [errNoTerm latexString], st)
  else
    let (attrs, st') :=
      if !hasStartRange && !hasEndRange then (indexType, st)
      else
        let knownHas := indexTerms ∈ st.known
        let newIndexTerms :=
          if knownHas then indexTerms ++ '-' :: (toString st.ctr).toList else indexTerms
        let ctr' := if knownHas ∧ hasEndRange then st.ctr + 1 else st.ctr
        let known' :=
          if ¬knownHas ∧ hasEndRange then knownInsert indexTerms st.known else st.known
        let id := cleanID newIndexTerms
        (if hasStartRange then startRangeAttrs indexType id else endRangeAttrs id,
         ⟨known', ctr'⟩)
    let body :=
      if hasEndRange then [XMLItem.compTag (dS "indexterm") attrs]
      else
        [XMLItem.startTag (dS "indexterm") attrs]
        ++ (match terms with
            | [] => []
            | t0 :: _ =>
              [XMLItem.startTag (dS "primary")
                 (if !sortAs.isEmpty then sortasAttr sortAs else []),
               XMLItem.text t0, XMLItem.endTag (dS "primary")])
        ++ (match terms[1]? with
            | some t1 =>
              [XMLItem.startTag (dS "secondary") [], XMLItem.text t1,
               XMLItem.endTag (dS "secondary")]
            | none => [])
        ++ (match terms[2]? with
            | some t2 =>
              [XMLItem.startTag (dS "tertiary") [], XMLItem.text t2,
               XMLItem.endTag (dS "tertiary")]
            | none => [])
        ++ (if !see.isEmpty then
              [XMLItem.startTag (dS "see") [], XMLItem.text see, XMLItem.endTag (dS "see")]
            else [])
        ++ (seeAlsoes.flatMap fun en =>
              [XMLItem.startTag (dS "seealso") [], XMLItem.text en,
               XMLItem.endTag (dS "seealso")])
        ++ [XMLItem.endTag (dS "indexterm")]
    (err1 ++ err2 ++ err3 ++ body, st')

/-! Parameter serialization (`InsetIndexParams::write`/`read`,
`InsetIndex::params2string`/`string2params`). -/

/-- `InsetIndexParams::write`: a space, then the index-type name (the
sentinel `idx` when the name is empty), then a newline. -/
def paramsWrite (index : DocString) : DocString :=
  ' ' :: (if index.isEmpty then dS "idx" else index) ++ ['\n']

/-- `InsetIndex::params2string`: the `index` type tag followed by the
written parameter block. -/
def params2string (index : DocString) : DocString :=
  dS "index" ++ paramsWrite index

/-- Modelled from the spec: the host document model's
`Lexer::eatLine`/`getDocString` (not part of this file), which reads the
remainder of the line as the parameter value; the single separating
blank emitted by the writer is consumed, and reading fails (`eatLine`
returns false) when no input remains. -/
def lexEatLine : DocString → Option DocString
  | [] => none
  | ' ' :: rest => some (rest.takeWhile (fun c => c != '\n'))
  | s => some (s.takeWhile (fun c => c != '\n'))

/-- `InsetIndexParams::read`: take the line's content as the index-type
name, falling back to the sentinel `idx` when no line could be read. -/
def paramsRead (s : DocString) : DocString :=
  match lexEatLine s with
  | some line => line
  | none => dS "idx"

/-- `InsetIndex::string2params`: reset to default parameters (empty
index name), return on empty input, otherwise consume the `index` token
and read the parameter block. -/
def string2params (s : DocString) : DocString :=
  if s.isEmpty then []
  else if (dS "index").isPrefixOf s then paramsRead (s.drop 5) else []

/-! The XHTML print-index path (`InsetPrintIndex::xhtml`). -/

/-- The anonymous-namespace `IndexEntry` of `InsetIndex.cpp`: the three
term fields, parsed from the raw entry string with `for_output = false`
(the `DocIterator` back-reference is carried separately in `PEntry`
below). -/
structure IndexEntry where
  main : DocString
  sub : DocString
  subsub : DocString
deriving DecidableEq, Repr, Inhabited

/-- The `IndexEntry(docstring, DocIterator)` constructor's parsing:
`extractSubentries` then `parseItem(_, false)` on each field. -/
def mkIndexEntry (s : DocString) : IndexEntry :=
  let (m, s1, s2) := extractSubentries s
  { main := parseItem m false, sub := parseItem s1 false, subsub := parseItem s2 false }

/-- `IndexEntry::equal`. -/
def IndexEntry.equal (a b : IndexEntry) : Bool :=
  a.main == b.main && a.sub == b.sub && a.subsub == b.subsub

/-- `IndexEntry::same_sub`. -/
def IndexEntry.same_sub (a b : IndexEntry) : Bool :=
  a.main == b.main && a.sub == b.sub

/-- `IndexEntry::same_main`. -/
def IndexEntry.same_main (a b : IndexEntry) : Bool :=
  a.main == b.main

/-- Modelled from the spec: the support library's per-character
lowercasing used by its case-insensitive comparison. -/
def lowerChar (c : Char) : Char := c.toLower

/-- Modelled from the spec: the support library's `compare_no_case`
(lexicographic comparison of the lowercased strings; a proper prefix is
smaller). -/
def cmpNoCase : DocString → DocString → Ordering
  | [], [] => .eq
  | [], _ :: _ => .lt
  | _ :: _, [] => .gt
  | a :: as, b :: bs =>
    if (lowerChar a).toNat < (lowerChar b).toNat then .lt
    else if (lowerChar b).toNat < (lowerChar a).toNat then .gt
    else cmpNoCase as bs

/-- The triple comparison of `operator<(IndexEntry, IndexEntry)`:
compare `main`, then `sub`, then `subsub`, case-insensitively. -/
def cmpEntry (a b : IndexEntry) : Ordering :=
  match cmpNoCase a.main b.main with
  | .eq =>
    match cmpNoCase a.sub b.sub with
    | .eq => cmpNoCase a.subsub b.subsub
    | o => o
  | o => o

/-- `operator<` on entries (`compare < 0`). -/
def IndexEntry.lt (a b : IndexEntry) : Bool := cmpEntry a b == Ordering.lt

/-- Stable insertion into a sorted list: the new element goes before the
first strictly greater element, hence after all earlier equivalents. -/
def insertSorted (lt : α → α → Bool) (x : α) : List α → List α
  | [] => [x]
  | y :: ys => if lt x y then x :: y :: ys else y :: insertSorted lt x ys

/-- `std::stable_sort` on the collected entries, modelled as a stable
insertion sort over the strict weak order `lt`. -/
def stableSort (lt : α → α → Bool) (l : List α) : List α :=
  l.foldl (fun acc x => insertSorted lt x acc) []

/-- One collected TOC item as fed to `InsetPrintIndex::xhtml`: the raw
entry string `it->str()`, the web rendering of its paragraph (what
`par.simpleLyXHTMLOnePar` produces, an external interface), the
paragraph's magic anchor label, and the `isOutput` flag. -/
structure TocEntry where
  str : DocString
  rendered : DocString
  label : DocString
  output : Bool
deriving DecidableEq, Repr

/-- A collected entry after parsing (`vector<IndexEntry>` element plus
the data reached through its `DocIterator`). -/
structure PEntry where
  ie : IndexEntry
  rendered : DocString
  label : DocString
deriving DecidableEq, Repr

/-- Build the `IndexEntry` for a TOC item. -/
def mkPEntry (e : TocEntry) : PEntry :=
  ⟨mkIndexEntry e.str, e.rendered, e.label⟩

/-- The sort order on collected entries. -/
def pLT (a b : PEntry) : Bool := IndexEntry.lt a.ie b.ie

/-- A single-quoted attribute `k='v'`. -/
def quoteAttr (k v : DocString) : DocString := k ++ '=' :: sq :: (v ++ [sq])

/-- `class='main'`. -/
def liMainAttr : DocString := quoteAttr (dS "class") (dS "main")

/-- `class='subentry'`. -/
def subAttr : DocString := quoteAttr (dS "class") (dS "subentry")

/-- `class='subsubentry'`. -/
def subsubAttr : DocString := quoteAttr (dS "class") (dS "subsubentry")

/-- `href='#<magic label>'`. -/
def aHref (label : DocString) : DocString :=
  dS "href=" ++ sq :: '#' :: (label ++ [sq])

/-- Decimal text of the streamed entry number. -/
def intText (n : Int) : DocString := (toString n).toList

/-- The loop state of `InsetPrintIndex::xhtml`: the current nesting
level (1–3), the last entry emitted, and `entry_number` (−1 before the
first iteration). -/
structure LoopState where
  level : Nat
  last : IndexEntry
  entryNumber : Int
deriving DecidableEq, Repr

/-- The state before the loop. -/
def loopInit : LoopState := ⟨1, ⟨[], [], []⟩, -1⟩

/-- The ordinal link for one occurrence: `": 1"` for the first
occurrence under a leaf, `", n"` afterwards, the number being an anchor
to the paragraph. -/
def linkItems (label : DocString) (n : Int) : List XMLItem :=
  [XMLItem.text (if n == 0 then dS ":" else dS ","),
   XMLItem.text (dS " "),
   XMLItem.startTag (dS "a") (aHref label),
   XMLItem.text (intText (n + 1)),
   XMLItem.endTag (dS "a")]

/-- The closing phase for a non-repeat entry (the three successive `if`s
of the source): returns the emitted tags and the new level. -/
def closeSteps (cur last : IndexEntry) (level : Nat) : List XMLItem × Nat :=
  let s1 :=
    if level == 3 then
      ([XMLItem.endTag (dS "li"), XMLItem.cr] ++
        (if !(cur.same_sub last) then [XMLItem.endTag (dS "ul"), XMLItem.cr] else []),
       if !(cur.same_sub last) then 2 else 3)
    else ([], level)
  let s2 :=
    if s1.2 == 2 && !(cur.same_sub last) then
      (s1.1 ++ [XMLItem.endTag (dS "li"), XMLItem.cr] ++
        (if !(cur.same_main last) then [XMLItem.endTag (dS "ul"), XMLItem.cr] else []),
       if !(cur.same_main last) then 1 else 2)
    else s1
  if s2.2 == 1 && !(cur.same_main last) then
    (s2.1 ++ [XMLItem.endTag (dS "li"), XMLItem.cr], s2.2)
  else s2

/-- The display fields of an entry: the paragraph's web rendering parsed
with `for_output = true`. -/
def displayTriple (rendered : DocString) : DocString × DocString × DocString :=
  let (m, s1, s2) := extractSubentries rendered
  (parseItem m true, parseItem s1 true, parseItem s2 true)

/-- The opening phase for a non-repeat entry: start tags and display
text depending on the level reached after closing. -/
def openSteps (p : PEntry) (last : IndexEntry) (level : Nat) : List XMLItem × Nat :=
  let (dm, ds, dss) := displayTriple p.rendered
  if level == 3 then
    ([XMLItem.startTag (dS "li") subsubAttr, XMLItem.text dss], 3)
  else if level == 2 then
    ((if p.ie.sub ≠ last.sub then
        [XMLItem.startTag (dS "li") subAttr, XMLItem.text ds]
      else []) ++
      (if !dss.isEmpty then
        [XMLItem.cr, XMLItem.startTag (dS "ul") subsubAttr,
         XMLItem.startTag (dS "li") subsubAttr, XMLItem.text dss]
      else []),
     if !dss.isEmpty then 3 else 2)
  else
    ((if p.ie.main ≠ last.main then
        [XMLItem.startTag (dS "li") liMainAttr, XMLItem.text dm]
      else []) ++
      (if !ds.isEmpty then
        [XMLItem.cr, XMLItem.startTag (dS "ul") subAttr,
         XMLItem.startTag (dS "li") subAttr, XMLItem.text ds] ++
        (if !dss.isEmpty then
          [XMLItem.cr, XMLItem.startTag (dS "ul") subsubAttr,
           XMLItem.startTag (dS "li") subsubAttr, XMLItem.text dss]
        else [])
      else []),
     if !ds.isEmpty then (if !dss.isEmpty then 3 else 2) else 1)

/-- One loop iteration: a repeat occurrence (equal to `last`, not the
first entry) only appends a new ordinal link; otherwise close and open
structure as needed, then link. -/
def stepEntry (p : PEntry) (st : LoopState) : List XMLItem × LoopState :=
  if st.entryNumber == -1 || !(p.ie.equal st.last) then
    let c := if st.entryNumber == -1 then ([], st.level) else closeSteps p.ie st.last st.level
    let o := openSteps p st.last c.2
    (c.1 ++ o.1 ++ linkItems p.label 0, ⟨o.2, p.ie, 1⟩)
  else
    (linkItems p.label st.entryNumber, ⟨st.level, p.ie, st.entryNumber + 1⟩)

/-- The entry loop followed by the final `while (level > 0)` closing. -/
def runLoop : List PEntry → LoopState → List XMLItem
  | [], st =>
    (List.range st.level).flatMap
      (fun _ => [XMLItem.endTag (dS "li"), XMLItem.endTag (dS "ul"), XMLItem.cr])
  | p :: r, st =>
    let s := stepEntry p st
    s.1 ++ runLoop r s.2

/-- `InsetPrintIndex::xhtml`.  `useIndices`/`typeParam` reproduce the
multi-index guard; `htmltag`, `htmlattr` and `tocclass` come from the
document class's TOC layout (external); `entries` is the collected TOC.
The returned event list is empty exactly when the source returns an
empty deferred string. -/
def printIndexXhtml (useIndices : Bool) (typeParam : DocString)
    (htmltag htmlattr tocclass : DocString) (entries : List TocEntry) :
    List XMLItem :=
  if useIndices && typeParam != dS "idx" then []
  else
    let es := entries.filter (·.output)
    if es.isEmpty then []
    else
      let ps := stableSort pLT (es.map mkPEntry)
      [XMLItem.startTag (dS "div") (quoteAttr (dS "class") (dS "index " ++ tocclass)),
       XMLItem.startTag htmltag htmlattr,
       XMLItem.text (dS "Index"),
       XMLItem.endTag htmltag,
       XMLItem.startTag (dS "ul") (quoteAttr (dS "class") (dS "main"))]
      ++ runLoop ps loopInit
      ++ [XMLItem.endTag (dS "div"), XMLItem.cr]

/-! Tag-counting measures for the tree-builder claims. -/

/-- Number of start tags with the given name. -/
def countStartTag (name : DocString) (l : List XMLItem) : Nat :=
  l.countP (fun x =>
    match x with
    | XMLItem.startTag n _ => n == name
    | _ => false)

/-- Number of end tags with the given name. -/
def countEndTag (name : DocString) (l : List XMLItem) : Nat :=
  l.countP (fun x =>
    match x with
    | XMLItem.endTag n => n == name
    | _ => false)

/-- Number of start tags with the given name and attribute string. -/
def countStartTagAttr (name attr : DocString) (l : List XMLItem) : Nat :=
  l.countP (fun x =>
    match x with
    | XMLItem.startTag n a => n == name && a == attr
    | _ => false)

/-- The nesting level a processed entry leaves open: 1 for a bare main
term, 2 with a subentry, 3 with a sub-subentry. -/
def lvl (e : IndexEntry) : Nat :=
  if e.sub.isEmpty then 1 else if e.subsub.isEmpty then 2 else 3

/-- Number of maximal runs of equal main terms in the (sorted) entry
list, counted as main-term boundaries against the previous main
`lm` (the virtual previous main is empty, and every real main is
non-empty, so the first entry always opens a run). -/
def mainRunCount (lm : DocString) : List PEntry → Nat
  | [] => 0
  | p :: r => (if p.ie.main = lm then 0 else 1) + mainRunCount p.ie.main r

/-- Number of maximal runs of equal main terms that contain an entry
with a non-empty subentry: scanned left to right, `opened` records
whether the current run has already been counted. -/
def subRunCount (lm : DocString) (opened : Bool) : List PEntry → Nat
  | [] => 0
  | p :: r =>
    if p.ie.main = lm then
      (if !opened ∧ p.ie.sub ≠ [] then 1 else 0) +
        subRunCount lm (opened || !p.ie.sub.isEmpty) r
    else
      (if p.ie.sub ≠ [] then 1 else 0) +
        subRunCount p.ie.main (!p.ie.sub.isEmpty) r

/-- Number of maximal runs of equal (main, sub) pairs with a non-empty
sub that contain an entry with a non-empty sub-subentry, scanned left to
right with an already-counted flag. -/
def subsubRunCount (lm ls : DocString) (opened : Bool) : List PEntry → Nat
  | [] => 0
  | p :: r =>
    if p.ie.main = lm ∧ p.ie.sub = ls then
      (if ¬p.ie.subsub.isEmpty ∧ ¬p.ie.sub.isEmpty ∧ !opened then 1 else 0) +
        subsubRunCount lm ls (opened || !p.ie.subsub.isEmpty) r
    else
      (if ¬p.ie.subsub.isEmpty ∧ ¬p.ie.sub.isEmpty then 1 else 0) +
        subsubRunCount p.ie.main p.ie.sub (!p.ie.subsub.isEmpty) r

/-- The sorted, collected entry list that the tree builder walks. -/
def sortedEntries (entries : List TocEntry) : List PEntry :=
  stableSort pLT ((entries.filter (·.output)).map mkPEntry)

end LyxIndex

namespace LyxIndex

/-! Basic facts about `isPrefixOf` and `findSub`. -/

theorem isPrefixOf_exists {p s : DocString} (h : p.isPrefixOf s = true) :
    ∃ r, s = p ++ r := by
  induction p generalizing s with
  | nil => exact ⟨s, rfl⟩
  | cons c p ih =>
    cases s with
    | nil => simp [List.isPrefixOf] at h
    | cons d t =>
      simp only [List.isPrefixOf, Bool.and_eq_true, beq_iff_eq] at h
      obtain ⟨r, hr⟩ := ih h.2
      exact ⟨r, by simp [h.1, hr]⟩

theorem isPrefixOf_append (p r : DocString) : p.isPrefixOf (p ++ r) = true := by
  induction p with
  | nil => simp [List.isPrefixOf]
  | cons c p ih => simp [List.isPrefixOf, ih]

/-- If the head character of a nonempty pattern does not occur in `s`,
the pattern does not occur in `s`. -/
theorem findSub_eq_none_of_not_mem {c : Char} {s p : DocString}
    (h : c ∉ s) : findSub s (c :: p) = none := by
  induction s with
  | nil => simp [findSub]
  | cons d t ih =>
    have hdc : ¬((c :: p).isPrefixOf (d :: t) = true) := by
      intro hp
      simp only [List.isPrefixOf, Bool.and_eq_true, beq_iff_eq] at hp
      exact h (by simp [hp.1])
    have ht : c ∉ t := fun hm => h (List.mem_cons_of_mem _ hm)
    simp [findSub, hdc, ih ht]

/-- Locating the unique occurrence of a character after a clean prefix. -/
theorem findSub_append_char {c : Char} {t : DocString} (u : DocString)
    (h : c ∉ t) : findSub (t ++ c :: u) [c] = some t.length := by
  induction t with
  | nil => simp [findSub, List.isPrefixOf]
  | cons d t ih =>
    have hdc : d ≠ c := fun he => h (by simp [he])
    have ht : c ∉ t := fun hm => h (List.mem_cons_of_mem _ hm)
    have hpre : ¬(([c] : DocString).isPrefixOf (d :: (t ++ c :: u)) = true) := by
      simp [List.isPrefixOf, hdc.symm]
    simp [findSub, hpre, ih ht]

/-- A two-character pattern starting with a character that occurs exactly
once, at a place not followed by the pattern's second character, does not
occur at all. -/
theorem findSub_pair_none {c k : Char} {t u : DocString}
    (ht : c ∉ t) (hu : c ∉ u) (hh : u.head? ≠ some k) :
    findSub (t ++ c :: u) [c, k] = none := by
  induction t with
  | nil =>
    have hpre : ¬(([c, k] : DocString).isPrefixOf (c :: u) = true) := by
      cases u with
      | nil => simp [List.isPrefixOf]
      | cons v w =>
        have hvk : ¬(k = v) := by
          intro he
          exact hh (by simp [← he])
        simp [List.isPrefixOf, hvk]
    simp [findSub, hpre, findSub_eq_none_of_not_mem hu]
  | cons d t ih =>
    have hdc : d ≠ c := fun he => ht (by simp [he])
    have ht' : c ∉ t := fun hm => ht (List.mem_cons_of_mem _ hm)
    have hpre : ¬(([c, k] : DocString).isPrefixOf (d :: (t ++ c :: u)) = true) := by
      simp [List.isPrefixOf, hdc.symm]
    simp [findSub, hpre, ih ht']

/-- A pattern whose head occurs nowhere later than stated: occurrence of
any pattern implies each of its characters occurs in the string. -/
theorem mem_of_findSub_some {s p : DocString} {i : Nat}
    (h : findSub s p = some i) {c : Char} (hc : c ∈ p) : c ∈ s := by
  induction s generalizing i with
  | nil =>
    simp only [findSub] at h
    split at h
    · next hp =>
      obtain ⟨r, hr⟩ := isPrefixOf_exists hp
      rw [List.nil_eq_append_iff] at hr
      simp [hr.1] at hc
    · exact absurd h (by simp)
  | cons d t ih =>
    simp only [findSub] at h
    split at h
    · next hp =>
      obtain ⟨r, hr⟩ := isPrefixOf_exists hp
      rw [hr]
      exact List.mem_append_left _ hc
    · next hp =>
      cases he : findSub t p with
      | none => simp [he] at h
      | some j => exact List.mem_cons_of_mem _ (ih he)

/-! Properties of the trims. -/

theorem ltrimS_eq_self_of_head {s : DocString}
    (h : ∀ c, s.head? = some c → c ≠ ' ') : ltrimS s = s := by
  cases s with
  | nil => rfl
  | cons c t =>
    have hc : (c == ' ') = false := by
      have : c ≠ ' ' := h c rfl
      simpa using this
    simp [ltrimS, List.dropWhile, isSpaceChar, hc]

theorem rtrimS_append_singleton {s : DocString} {c : Char} (h : c ≠ ' ') :
    rtrimS (s ++ [c]) = s ++ [c] := by
  unfold rtrimS
  rw [List.reverse_append]
  have hc : (c == ' ') = false := by simpa using h
  simp [List.dropWhile, isSpaceChar, hc]

/-- `trimS s = s` forces both one-sided trims to fix `s`. -/
theorem trims_of_trimS_eq_self {s : DocString} (h : trimS s = s) :
    ltrimS s = s ∧ rtrimS s = s := by
  have h' : ltrimS (rtrimS s) = s := h
  have hlt : (ltrimS (rtrimS s)).length ≤ (rtrimS s).length := by
    simpa [ltrimS] using (List.dropWhile_sublist (l := rtrimS s) (p := isSpaceChar)).length_le
  have hrt : (rtrimS s).length ≤ s.length := by
    have := (List.dropWhile_sublist (l := s.reverse) (p := isSpaceChar)).length_le
    simpa [rtrimS] using this
  have hlen : s.length = (ltrimS (rtrimS s)).length := by
    rw [h']
  have hrlen : (rtrimS s).length = s.length := by omega
  have hr : rtrimS s = s := by
    have hsub : (rtrimS s).reverse.Sublist s.reverse := by
      simpa [rtrimS] using (List.dropWhile_sublist (l := s.reverse) (p := isSpaceChar))
    have := hsub.eq_of_length (by simpa using hrlen)
    simpa using congrArg List.reverse this
  rw [hr] at h'
  exact ⟨h', hr⟩

theorem ltrimS_append {s t : DocString} (h : ltrimS s ≠ []) :
    ltrimS (s ++ t) = ltrimS s ++ t := by
  induction s with
  | nil => simp [ltrimS] at h
  | cons c u ih =>
    by_cases hc : isSpaceChar c
    · have h' : ltrimS u ≠ [] := by
        simpa [ltrimS, List.dropWhile, hc] using h
      simpa [ltrimS, List.dropWhile, hc] using ih h'
    · simp [ltrimS, List.dropWhile, hc]

theorem rtrimS_append {s t : DocString} (h : rtrimS t ≠ []) :
    rtrimS (s ++ t) = s ++ rtrimS t := by
  unfold rtrimS at *
  rw [List.reverse_append]
  have hne : t.reverse.dropWhile isSpaceChar ≠ [] := by
    intro he
    exact h (by simp [he])
  rw [List.dropWhile_append]
  simp only [List.isEmpty_iff, hne, if_neg]
  simp

theorem trimS_append_of_clean {s t : DocString}
    (hs : trimS s = s) (hsne : s ≠ []) (ht : rtrimS t = t) (htne : t ≠ []) :
    trimS (s ++ t) = s ++ t := by
  obtain ⟨hl, hr⟩ := trims_of_trimS_eq_self hs
  have h1 : rtrimS (s ++ t) = s ++ t := by
    rw [rtrimS_append (by rw [ht]; exact htne), ht]
  unfold trimS
  rw [h1]
  have : ltrimS (s ++ t) = ltrimS s ++ t := ltrimS_append (by rw [hl]; exact hsne)
  rw [this, hl]

/-! Claim C5: plain entries parse to themselves. -/

/-- C5. For every entry string `s` that contains none of `'@'`, `'|'`,
`'!'`, parsing with `forOutput = true` and with `forOutput = false` both
yield the triple `(s, "", "")`: the main term is `s` unchanged and the
sub- and sub-sub-terms are empty (the empty string being the `s = []`
instance, yielding three empty fields). -/
theorem c5_plain_parse (s : DocString)
    (h1 : '@' ∉ s) (h2 : '|' ∉ s) (h3 : '!' ∉ s) :
    parseEntry s true = (s, [], []) ∧ parseEntry s false = (s, [], []) := by
  have hsplit : extractSubentries s = (s, [], []) := by
    unfold extractSubentries
    by_cases hs : s.isEmpty
    · simp [hs, (List.isEmpty_iff).mp hs]
    · have hfind : findSub s (dS " ! ") = none := by
        cases he : findSub s (dS " ! ") with
        | none => rfl
        | some i =>
          exact absurd (mem_of_findSub_some he (by simp [dS])) h3
      simp [hs, hfind]
  have hitem : ∀ b : Bool, parseItem s b = s := by
    intro b
    unfold parseItem
    have hat : findSub s (dS "@") = none := by
      simpa [dS] using findSub_eq_none_of_not_mem (s := s) (p := []) h1
    have hbar : findSub s (dS "|") = none := by
      simpa [dS] using findSub_eq_none_of_not_mem (s := s) (p := []) h2
    simp [hat, hbar]
  have hnil : ∀ b : Bool, parseItem [] b = [] := by intro b; rfl
  constructor <;>
    simp [parseEntry, hsplit, hitem, hnil]

/-- C5 witness. -/
theorem c5_plain_parse_witness :
    ('@' ∉ dS "abc") ∧ ('|' ∉ dS "abc") ∧ ('!' ∉ dS "abc") ∧
      parseEntry (dS "abc") true = (dS "abc", [], []) ∧
      parseEntry (dS "abc") false = (dS "abc", [], []) := by
  refine ⟨by decide, by decide, by decide, ?_⟩
  have h := c5_plain_parse (dS "abc") (by decide) (by decide) (by decide)
  exact ⟨h.1, h.2⟩

/-! Claim C6: the subentry split. -/

/-- C6 counterexample.  The claim asserts that every segment assigned to
`main` is trimmed of surrounding whitespace; but when the delimiter
`" ! "` is absent, `extractSubentries` assigns the entry to `main`
unchanged, so the input `" a"` keeps its leading space. -/
theorem c6_counterexample :
    extractSubentries (dS " a") = (dS " a", [], []) ∧
      trimS (dS " a") = dS "a" ∧ dS " a" ≠ dS "a" := by
  refine ⟨by decide, by decide, by decide⟩

/-- C6 as amended: the split takes the first occurrence of the literal
three-character delimiter `" ! "` at most twice; when the delimiter is
present, all resulting segments are trimmed of surrounding space
characters; when it is absent, `main` is the input itself, untrimmed,
and `sub`/`subsub` stay empty. -/
theorem c6_split_amended (e : DocString) :
    extractSubentries e = splitEntryClaim e := by
  unfold extractSubentries splitEntryClaim splitFirstAt findSubFrom
  by_cases he : e.isEmpty
  · have : e = [] := List.isEmpty_iff.mp he
    subst this
    simp [findSub, List.isPrefixOf, dS]
  · simp only [he, if_neg, Bool.false_eq_true, not_false_iff]
    cases h1 : findSub e (dS " ! ") with
    | none => simp
    | some loc =>
      have hlen : (dS " ! ").length = 3 := rfl
      cases h2 : findSub (e.drop (loc + 3)) (dS " ! ") with
      | none => simp [hlen, h2]
      | some i =>
        simp only [hlen, h2, Option.map_some', Nat.add_sub_cancel]
        have e3 : List.drop (i + 3) (List.drop (loc + 3) e) =
            List.drop (i + (loc + 3) + 3) e := by
          rw [List.drop_drop]
          congr 1
          omega
        rw [e3]

/-! Claim C2: the concrete `see` entry. -/

/-- C2 counterexample.  On `"Smith@John Smith|see{Jones}"` the claim
asserts the sort attribute is absent from the primary element; but the
two-piece `@` split makes `sortAs = "Smith"` nonempty, so the source
emits the primary element with a `sortas='Smith'` attribute. -/
theorem c2_sortas_counterexample :
    XMLItem.startTag (dS "primary") (sortasAttr (dS "Smith")) ∈
      (docbook false [] (dS "Smith@John Smith|see" ++ '{' :: dS "Jones" ++ ['}'])
        rangeStateInit).1 ∧
    XMLItem.startTag (dS "primary") [] ∉
      (docbook false [] (dS "Smith@John Smith|see" ++ '{' :: dS "Jones" ++ ['}'])
        rangeStateInit).1 := by
  constructor
  · decide
  · decide

/-- C2 as amended: the transform on `"Smith@John Smith|see{Jones}"`
emits a primary term element with display text `"John Smith"` carrying
the sort attribute `sortas='Smith'` (present, with the first `@`-piece
as its value), one `see` child with value `"Jones"`, and no error
diagnostic comments (the output is exactly the eight markup events
below, none of which is a comment); the range state is untouched. -/
theorem c2_semantic_markup_amended :
    docbook false [] (dS "Smith@John Smith|see" ++ '{' :: dS "Jones" ++ ['}'])
        rangeStateInit =
      ([XMLItem.startTag (dS "indexterm") [],
        XMLItem.startTag (dS "primary") (sortasAttr (dS "Smith")),
        XMLItem.text (dS "John Smith"),
        XMLItem.endTag (dS "primary"),
        XMLItem.startTag (dS "see") [],
        XMLItem.text (dS "Jones"),
        XMLItem.endTag (dS "see"),
        XMLItem.endTag (dS "indexterm")], rangeStateInit) := by
  decide

/-! Claim C10: end-of-range entries. -/

/-- C10 counterexample.  The claim quantifies over every input
containing `"|)"`; but the input `"a|(x|)"` contains both range markers,
and the source then emits the self-closing `indexterm` with the
start-of-range attributes (`class="startofrange" xml:id=...`), not the
end-of-range class and back-reference. -/
theorem c10_counterexample :
    ((docbook false [] (dS "a|(x|)") rangeStateInit).1).filter
        (fun x => !x.isComment) =
      [XMLItem.compTag (dS "indexterm") (startRangeAttrs [] (dS "a"))] ∧
    ∀ ref : DocString, startRangeAttrs [] (dS "a") ≠ endRangeAttrs ref := by
  constructor
  · decide
  · intro ref h
    have h8 := congrArg (fun l : DocString => l[8]?) h
    have hL : (startRangeAttrs [] (dS "a"))[8]? = some 's' := by decide
    have hR : (endRangeAttrs ref)[8]? = some 'e' := by
      unfold endRangeAttrs
      rw [List.getElem?_append_left (by simp [dS])]
      rw [List.getElem?_append_left (by simp [dS])]
      decide
    simp only [hL, hR] at h8
    exact absurd h8 (by decide)

/-- C10 as amended: every entry containing the end-of-range marker
`"|)"` and not also containing the start-of-range marker `"|("` is
emitted as a single self-closing `indexterm` element carrying only the
`endofrange` class and back-reference attributes — the non-comment
output is exactly that one element, with no primary/secondary/tertiary
and no see/seealso children, even when the text before `"|)"` is a
non-empty term list. -/
theorem filter_error_block (e1 e2 e3 : Bool) (m3 ls : DocString) (x : XMLItem)
    (hx : x.isComment = false) :
    ((if e1 then [errAtBackslash ls] else []) ++
        (if e2 then [errSeveralSee ls] else []) ++
        (if e3 then [errUnsupportedCmd m3 ls] else []) ++ [x]).filter
      (fun y => !y.isComment) = [x] := by
  simp only [XMLItem.isComment] at hx
  cases e1 <;> cases e2 <;> cases e3 <;>
    simp [errAtBackslash, errSeveralSee, errUnsupportedCmd, XMLItem.isComment,
      List.filter, hx]

theorem c10_endofrange_amended (u : Bool) (pI s : DocString) (st : RangeState)
    (hE : containsSub (trimS s) ('|' :: [')']) = true)
    (hS : containsSub (trimS s) ('|' :: ['(']) = false) :
    ∃ ref, ((docbook u pI s st).1).filter (fun x => !x.isComment) =
      [XMLItem.compTag (dS "indexterm") (endRangeAttrs ref)] := by
  unfold docbook
  simp only [hE, hS, Bool.not_true, Bool.not_false, Bool.and_false, Bool.true_and,
    Bool.false_and, Bool.and_true, Bool.false_eq_true, Bool.true_eq_false,
    Bool.false_or, if_false, if_true, ite_false, ite_true]
  exact ⟨_, filter_error_block _ _ _ _ _ _ rfl⟩

/-- C10 amended witness. -/
theorem c10_endofrange_amended_witness :
    containsSub (trimS (dS "Term|)")) ('|' :: [')']) = true ∧
    containsSub (trimS (dS "Term|)")) ('|' :: ['(']) = false ∧
    ∃ ref, ((docbook false [] (dS "Term|)") rangeStateInit).1).filter
        (fun x => !x.isComment) =
      [XMLItem.compTag (dS "indexterm") (endRangeAttrs ref)] :=
  ⟨by decide, by decide,
   c10_endofrange_amended false [] (dS "Term|)") rangeStateInit (by decide) (by decide)⟩

/-! Claim C9: parameter round-trip. -/

theorem takeWhile_append_of_all {p : Char → Bool} {a b : DocString}
    (h : ∀ c ∈ a, p c = true) :
    (a ++ b).takeWhile p = a ++ b.takeWhile p := by
  induction a with
  | nil => simp
  | cons c t ih =>
    have hc : p c = true := h c (by simp)
    have ht : ∀ d ∈ t, p d = true := fun d hd => h d (by simp [hd])
    simp [List.takeWhile, hc, ih ht]

/-- C9.  The index-entry inset's parameter serialization round-trips:
writing produces the `index` type tag followed by a single-line block
holding the index-type name (the sentinel `idx` when the name is empty),
and reading the written string back recovers the name — equal to the
original for every non-empty name, and the sentinel `idx` for the empty
name.  (Names are single-line, i.e. contain no newline.) -/
theorem c9_roundtrip (name : DocString) (h : '\n' ∉ name) :
    params2string name =
      dS "index" ++ ' ' :: (if name.isEmpty then dS "idx" else name) ++ ['\n'] ∧
    string2params (params2string name) =
      (if name.isEmpty then dS "idx" else name) := by
  refine ⟨rfl, ?_⟩
  have hbody : ∀ c ∈ (if name.isEmpty then dS "idx" else name), (c != '\n') = true := by
    intro c hc
    by_cases hn : name.isEmpty
    · simp [hn, dS] at hc
      rcases hc with h1 | h1 | h1 <;> simp [h1, dS]
    · simp [hn] at hc
      have : c ≠ '\n' := fun he => h (he ▸ hc)
      simpa using this
  have hne : ¬(params2string name).isEmpty := by
    simp [params2string, dS]
  have hpre : (dS "index").isPrefixOf (params2string name) = true := by
    unfold params2string
    exact isPrefixOf_append _ _
  have hdrop : (params2string name).drop 5 = paramsWrite name := rfl
  unfold string2params
  simp only [hne, if_neg, if_false, hpre, if_true, hdrop, Bool.false_eq_true,
    not_false_iff, ite_true, ite_false]
  have hlex : paramsRead (paramsWrite name) =
      ((if name.isEmpty then dS "idx" else name) ++ ['\n']).takeWhile
        (fun c => c != '\n') := rfl
  rw [hlex, takeWhile_append_of_all hbody]
  simp [List.takeWhile]

/-- C9 witness. -/
theorem c9_roundtrip_witness :
    ('\n' ∉ dS "glossary") ∧
      params2string (dS "glossary") =
        dS "index" ++ ' ' :: (if (dS "glossary").isEmpty then dS "idx" else dS "glossary") ++ ['\n'] ∧
      string2params (params2string (dS "glossary")) =
        (if (dS "glossary").isEmpty then dS "idx" else dS "glossary") := by
  refine ⟨by decide, ?_⟩
  exact c9_roundtrip (dS "glossary") (by decide)

/-! Claim C8: an empty collected entry list yields no output. -/

/-- C8.  When the collected (output-enabled) entry list is empty, the
print-index element produces no output at all: the returned deferred
stream is empty — no wrapper, heading, or list markup. -/
theorem c8_empty_entries (u : Bool) (t htmltag htmlattr tocclass : DocString)
    (entries : List TocEntry) (h : entries.filter (·.output) = []) :
    printIndexXhtml u t htmltag htmlattr tocclass entries = [] := by
  unfold printIndexXhtml
  by_cases hu : (u && t != dS "idx") = true
  · simp [hu]
  · simp [hu, h]

/-- C8 witness. -/
theorem c8_empty_entries_witness :
    ([⟨dS "apple", dS "apple", dS "L1", false⟩] : List TocEntry).filter (·.output) = [] ∧
      printIndexXhtml false (dS "idx") (dS "h2") [] (dS "toc")
        [⟨dS "apple", dS "apple", dS "L1", false⟩] = [] :=
  ⟨by decide,
   c8_empty_entries false (dS "idx") (dS "h2") [] (dS "toc")
     [⟨dS "apple", dS "apple", dS "L1", false⟩] (by decide)⟩

/-! Claim C3: the concrete entry-tree example. -/

/-- C3 counterexample.  On the claim's literal entry list
`["apple!red", "apple!red", "apple!green", "banana"]` the builder emits
three main items and no sub-list at all: the subentry delimiter is the
three-character `" ! "`, so `"apple!red"` is a single undivided main
term; the claim asserts one main item "apple" containing a sub-list. -/
theorem c3_tree_builder_counterexample :
    (printIndexXhtml false (dS "idx") (dS "h2") [] (dS "toc")
        [⟨dS "apple!red", dS "apple!red", dS "L1", true⟩,
         ⟨dS "apple!red", dS "apple!red", dS "L2", true⟩,
         ⟨dS "apple!green", dS "apple!green", dS "L3", true⟩,
         ⟨dS "banana", dS "banana", dS "L4", true⟩]).countP
      (fun x => match x with
        | XMLItem.startTag n a => n == dS "li" && a == liMainAttr
        | _ => false) = 3 ∧
    (printIndexXhtml false (dS "idx") (dS "h2") [] (dS "toc")
        [⟨dS "apple!red", dS "apple!red", dS "L1", true⟩,
         ⟨dS "apple!red", dS "apple!red", dS "L2", true⟩,
         ⟨dS "apple!green", dS "apple!green", dS "L3", true⟩,
         ⟨dS "banana", dS "banana", dS "L4", true⟩]).countP
      (fun x => match x with
        | XMLItem.startTag n a => n == dS "ul" && a == subAttr
        | _ => false) = 0 := by
  constructor
  · decide
  · decide

/-- C3 as amended: with the entries written in the builder's actual
subentry syntax, `["apple ! red", "apple ! red", "apple ! green",
"banana"]`, the builder (which sorts its input case-insensitively,
placing "green" before "red") emits one main item "apple" containing a
sub-list whose first sub-item is "green" with one ordinal link `: 1`,
followed by sub-item "red" with two ordinal links `: 1` and `, 2`, then
closes the sub-list and emits a new main item "banana" with one ordinal
link `: 1`. -/
theorem c3_tree_builder_amended :
    printIndexXhtml false (dS "idx") (dS "h2") [] (dS "toc")
        [⟨dS "apple ! red", dS "apple ! red", dS "L1", true⟩,
         ⟨dS "apple ! red", dS "apple ! red", dS "L2", true⟩,
         ⟨dS "apple ! green", dS "apple ! green", dS "L3", true⟩,
         ⟨dS "banana", dS "banana", dS "L4", true⟩] =
      [XMLItem.startTag (dS "div") (quoteAttr (dS "class") (dS "index toc")),
       XMLItem.startTag (dS "h2") [],
       XMLItem.text (dS "Index"),
       XMLItem.endTag (dS "h2"),
       XMLItem.startTag (dS "ul") (quoteAttr (dS "class") (dS "main")),
       XMLItem.startTag (dS "li") liMainAttr, XMLItem.text (dS "apple"), XMLItem.cr,
       XMLItem.startTag (dS "ul") subAttr,
       XMLItem.startTag (dS "li") subAttr, XMLItem.text (dS "green"),
       XMLItem.text (dS ":"), XMLItem.text (dS " "),
       XMLItem.startTag (dS "a") (aHref (dS "L3")), XMLItem.text (dS "1"),
       XMLItem.endTag (dS "a"),
       XMLItem.endTag (dS "li"), XMLItem.cr,
       XMLItem.startTag (dS "li") subAttr, XMLItem.text (dS "red"),
       XMLItem.text (dS ":"), XMLItem.text (dS " "),
       XMLItem.startTag (dS "a") (aHref (dS "L1")), XMLItem.text (dS "1"),
       XMLItem.endTag (dS "a"),
       XMLItem.text (dS ","), XMLItem.text (dS " "),
       XMLItem.startTag (dS "a") (aHref (dS "L2")), XMLItem.text (dS "2"),
       XMLItem.endTag (dS "a"),
       XMLItem.endTag (dS "li"), XMLItem.cr,
       XMLItem.endTag (dS "ul"), XMLItem.cr,
       XMLItem.endTag (dS "li"), XMLItem.cr,
       XMLItem.startTag (dS "li") liMainAttr, XMLItem.text (dS "banana"),
       XMLItem.text (dS ":"), XMLItem.text (dS " "),
       XMLItem.startTag (dS "a") (aHref (dS "L4")), XMLItem.text (dS "1"),
       XMLItem.endTag (dS "a"),
       XMLItem.endTag (dS "li"), XMLItem.endTag (dS "ul"), XMLItem.cr,
       XMLItem.endTag (dS "div"), XMLItem.cr] := by
  decide

/-! Symbolic-evaluation lemmas for `docbook` on well-formed inputs. -/

theorem take_append_len (t u : DocString) : (t ++ u).take t.length = t := by
  induction t with
  | nil => simp
  | cons c r ih => simp [ih]

theorem drop_append_cons (t u : DocString) (c : Char) :
    (t ++ c :: u).drop (t.length + 1) = u := by
  induction t with
  | nil => simp
  | cons d r ih => simp [ih]

theorem take_append_le {t u : DocString} {n : Nat} (h : n ≤ t.length) :
    (t ++ u).take n = t.take n := by
  induction t generalizing n with
  | nil =>
    have : n = 0 := by simpa using h
    simp [this]
  | cons c r ih =>
    cases n with
    | zero => simp
    | succ m => simpa using ih (by simpa using h)

theorem findSub_append_pair {c k : Char} {t : DocString} (u : DocString)
    (h : c ∉ t) : findSub (t ++ c :: k :: u) [c, k] = some t.length := by
  induction t with
  | nil => simp [findSub, List.isPrefixOf]
  | cons d r ih =>
    have hdc : d ≠ c := fun he => h (by simp [he])
    have hr : c ∉ r := fun hm => h (List.mem_cons_of_mem _ hm)
    have hpre : ¬(([c, k] : DocString).isPrefixOf (d :: (r ++ c :: k :: u)) = true) := by
      simp [List.isPrefixOf, hdc.symm]
    simp [findSub, hpre, ih hr]

theorem findSub_single_none {c : Char} {s : DocString} (h : c ∉ s) :
    findSub s [c] = none :=
  findSub_eq_none_of_not_mem (p := []) h

theorem gvfs_no_delim {s d : DocString} (hs : s ≠ [])
    (hd : findSub (rtrimS s) d = none) (ke : Bool) :
    getVectorFromString s d ke = [ltrimS (rtrimS s)] := by
  unfold getVectorFromString
  have hne : ¬(s.isEmpty = true) := by simpa [List.isEmpty_iff] using hs
  cases s with
  | nil => exact absurd rfl hs
  | cons c r =>
    simp only [hne, if_false, Bool.false_eq_true, ite_false]
    show gvfsGo d ke (r.length + 1) (rtrimS (c :: r)) = [ltrimS (rtrimS (c :: r))]
    unfold gvfsGo
    rw [hd]

/-- Splitting a clean string (no delimiter occurrence, fixed by `trim`)
is the identity. -/
theorem gvfs_clean {t : DocString} {c : Char} (ht : trimS t = t) (htne : t ≠ [])
    (hc : c ∉ t) (ke : Bool) : getVectorFromString t [c] ke = [t] := by
  obtain ⟨hl, hr⟩ := trims_of_trimS_eq_self ht
  rw [gvfs_no_delim htne (by rw [hr]; exact findSub_single_none hc) ke, hr, hl]

theorem eraseAllBar_of_none {s pat : DocString} (h : findSub s pat = none) :
    eraseAllBar s pat = s := by
  unfold eraseAllBar
  cases s with
  | nil => rfl
  | cons c r =>
    show eraseLoop pat (r.length + 1) (c :: r) 0 = c :: r
    unfold eraseLoop
    simp [findSubFrom, h]

theorem unescapeBraces_of_no_backslash {s : DocString} (h : '\\' ∉ s) :
    unescapeBraces s = s := by
  unfold unescapeBraces
  rw [eraseAllBar_of_none (findSub_eq_none_of_not_mem h),
    eraseAllBar_of_none (findSub_eq_none_of_not_mem h)]

theorem not_mem_wf {c : Char} {P lst : DocString} {x y : Char}
    (hP : c ∉ P) (hx : c ≠ x) (hl : c ∉ lst) (hy : c ≠ y) :
    c ∉ P ++ x :: (lst ++ [y]) := by
  intro hm
  rcases List.mem_append.mp hm with h | h
  · exact hP h
  · rcases List.mem_cons.mp h with h | h
    · exact hx h
    · rcases List.mem_append.mp h with h | h
      · exact hl h
      · exact hy (by simpa using h)

theorem bracketContent_wellformed {P lst : DocString}
    (hP1 : '{' ∉ P) (hP2 : '}' ∉ P) (hl : '}' ∉ lst) :
    bracketContent (P ++ '{' :: (lst ++ ['}'])) = lst := by
  have ho : findSub (P ++ '{' :: (lst ++ ['}'])) ['{'] = some P.length :=
    findSub_append_char _ hP1
  have hshape : P ++ '{' :: (lst ++ ['}']) = (P ++ '{' :: lst) ++ '}' :: [] := by
    simp
  have hnm : '}' ∉ P ++ '{' :: lst := by
    intro hm
    rcases List.mem_append.mp hm with h | h
    · exact hP2 h
    · rcases List.mem_cons.mp h with h | h
      · exact absurd h (by decide)
      · exact hl h
  have hcl : findSub (P ++ '{' :: (lst ++ ['}'])) ['}'] =
      some (P.length + (lst.length + 1)) := by
    rw [hshape]
    have := findSub_append_char (t := P ++ '{' :: lst) ([] : DocString) hnm
    rw [this]
    simp
  simp only [bracketContent, ho, hcl]
  have hnlt : ¬(P.length + (lst.length + 1) < P.length + 1) := by omega
  rw [if_neg hnlt]
  have hdrop : (P ++ '{' :: (lst ++ ['}'])).drop (P.length + 1) = lst ++ ['}'] :=
    drop_append_cons _ _ _
  rw [hdrop]
  have harith : P.length + (lst.length + 1) - P.length - 1 = lst.length := by omega
  rw [harith, take_append_len]

theorem afterBracket_wellformed {P lst : DocString}
    (hP2 : '}' ∉ P) (hl : '}' ∉ lst) :
    afterBracket (P ++ '{' :: (lst ++ ['}'])) = [] := by
  have hshape : P ++ '{' :: (lst ++ ['}']) = (P ++ '{' :: lst) ++ '}' :: [] := by
    simp
  have hnm : '}' ∉ P ++ '{' :: lst := by
    intro hm
    rcases List.mem_append.mp hm with h | h
    · exact hP2 h
    · rcases List.mem_cons.mp h with h | h
      · exact absurd h (by decide)
      · exact hl h
  have hcl : findSub (P ++ '{' :: (lst ++ ['}'])) ['}'] =
      some ((P ++ '{' :: lst).length) := by
    rw [hshape]
    exact findSub_append_char ([] : DocString) hnm
  simp only [afterBracket, hcl]
  rw [hshape]
  exact drop_append_cons _ _ _

theorem findSub_eq_none_of_mem_not_mem {s pat : DocString} {c : Char}
    (hc : c ∈ pat) (h : c ∉ s) : findSub s pat = none := by
  cases he : findSub s pat with
  | none => rfl
  | some i => exact absurd (mem_of_findSub_some he hc) h

/-- C7.  For a well-formed entry `term|see{list}` or `term|seealso{list}`
(term and bracketed list free of the micro-syntax metacharacters, term
clean of surrounding spaces): with the full 7-character prefix
`seealso`, the bracketed list is split on commas into one cross-reference
element per piece; otherwise (`see`) the bracketed content is one single
`see` target, and the non-fatal error diagnostic is emitted if and only
if that target contains a comma; in both cases processing completes and
the `indexterm` element is emitted (and the range state is untouched). -/
theorem c7_see_seealso (t lst : DocString) (st : RangeState)
    (ht : trimS t = t) (htne : t ≠ [])
    (h1 : '|' ∉ t) (h2 : '@' ∉ t) (h3 : '\\' ∉ t) (h4 : '!' ∉ t)
    (g1 : '|' ∉ lst) (g3 : '}' ∉ lst) (g4 : '\\' ∉ lst)
    (g5 : lst ≠ []) :
    docbook false [] (t ++ '|' :: (dS "see" ++ '{' :: (lst ++ ['}']))) st =
      ((if containsSub lst (dS ",") then
          [errSeveralSee (t ++ '|' :: (dS "see" ++ '{' :: (lst ++ ['}'])))]
        else []) ++
        [XMLItem.startTag (dS "indexterm") [],
         XMLItem.startTag (dS "primary") [],
         XMLItem.text t, XMLItem.endTag (dS "primary"),
         XMLItem.startTag (dS "see") [], XMLItem.text lst,
         XMLItem.endTag (dS "see"),
         XMLItem.endTag (dS "indexterm")], st) ∧
    docbook false [] (t ++ '|' :: (dS "seealso" ++ '{' :: (lst ++ ['}']))) st =
      ([XMLItem.startTag (dS "indexterm") [],
        XMLItem.startTag (dS "primary") [],
        XMLItem.text t, XMLItem.endTag (dS "primary")] ++
        ((getVectorFromString lst (dS ",") false).flatMap fun e =>
          [XMLItem.startTag (dS "seealso") [], XMLItem.text e,
           XMLItem.endTag (dS "seealso")]) ++
        [XMLItem.endTag (dS "indexterm")], st) := by
  have hlstE : lst.isEmpty = false := by simpa [List.isEmpty_iff] using g5
  constructor
  · -- the `see` case
    have hbarC : '|' ∉ dS "see" ++ '{' :: (lst ++ ['}']) :=
      not_mem_wf (by decide) (by decide) g1 (by decide)
    have hbsC : '\\' ∉ dS "see" ++ '{' :: (lst ++ ['}']) :=
      not_mem_wf (by decide) (by decide) g4 (by decide)
    have hbsL : '\\' ∉ t ++ '|' :: (dS "see" ++ '{' :: (lst ++ ['}'])) := by
      intro hm
      rcases List.mem_append.mp hm with h | h
      · exact h3 h
      · rcases List.mem_cons.mp h with h | h
        · exact absurd h (by decide)
        · exact hbsC h
    have hshapeC : ('|' :: (dS "see" ++ '{' :: (lst ++ ['}']))) =
        ('|' :: (dS "see" ++ '{' :: lst)) ++ ['}'] := by simp
    have s0 : trimS (t ++ '|' :: (dS "see" ++ '{' :: (lst ++ ['}'])))
        = t ++ '|' :: (dS "see" ++ '{' :: (lst ++ ['}'])) := by
      refine trimS_append_of_clean ht htne ?_ (by simp)
      rw [hshapeC]
      exact rtrimS_append_singleton (by decide)
    have sAt : containsSub (t ++ '|' :: (dS "see" ++ '{' :: (lst ++ ['}'])))
        ('@' :: ['\\']) = false := by
      unfold containsSub
      rw [findSub_eq_none_of_mem_not_mem (by decide) hbsL]
      rfl
    have s2 : findSub (t ++ '|' :: (dS "see" ++ '{' :: (lst ++ ['}'])))
        (dS "|") = some t.length := findSub_append_char _ h1
    have s3 : (t ++ '|' :: (dS "see" ++ '{' :: (lst ++ ['}']))).take t.length = t :=
      take_append_len _ _
    have s4 : (t ++ '|' :: (dS "see" ++ '{' :: (lst ++ ['}']))).drop (t.length + 1)
        = dS "see" ++ '{' :: (lst ++ ['}']) := drop_append_cons _ _ _
    have s5 : getVectorFromString t (dS "@") false = [t] := gvfs_clean ht htne h2 false
    have s6 : getVectorFromString t (dS "!") false = [t] := gvfs_clean ht htne h4 false
    have s7 : containsSub (t ++ '|' :: (dS "see" ++ '{' :: (lst ++ ['}'])))
        ('|' :: ['(']) = false := by
      unfold containsSub
      rw [findSub_pair_none h1 hbarC (by simp [dS])]
      rfl
    have s8 : containsSub (t ++ '|' :: (dS "see" ++ '{' :: (lst ++ ['}'])))
        ('|' :: [')']) = false := by
      unfold containsSub
      rw [findSub_pair_none h1 hbarC (by simp [dS])]
      rfl
    have s9 : (dS "see" ++ '{' :: (lst ++ ['}'])).take 3 = dS "see" := by
      rw [take_append_le (by decide)]
      decide
    have s10 : unescapeBraces (dS "see" ++ '{' :: (lst ++ ['}'])) =
        dS "see" ++ '{' :: (lst ++ ['}']) := unescapeBraces_of_no_backslash hbsC
    have s11 : (dS "see" ++ '{' :: (lst ++ ['}'])).take 7 ≠ dS "seealso" := by
      intro hh
      have h3' : ((dS "see" ++ '{' :: (lst ++ ['}'])).take 7)[3]? = (dS "seealso")[3]? := by
        rw [hh]
      have hl : ((dS "see" ++ '{' :: (lst ++ ['}'])).take 7)[3]? = some '{' := by
        simp [dS]
      rw [hl] at h3'
      exact absurd h3' (by decide)
    have s12 : bracketContent (dS "see" ++ '{' :: (lst ++ ['}'])) = lst :=
      bracketContent_wellformed (by decide) (by decide) g3
    have s13 : afterBracket (dS "see" ++ '{' :: (lst ++ ['}'])) = [] :=
      afterBracket_wellformed (by decide) g3
    simp only [docbook, s0, sAt, s2, s3, s4, s5, s6, s7, s8]
    simp [s9, s10, s11, s12, s13, typeAttr, hlstE]
  · -- the `seealso` case
    have hbarC : '|' ∉ dS "seealso" ++ '{' :: (lst ++ ['}']) :=
      not_mem_wf (by decide) (by decide) g1 (by decide)
    have hbsC : '\\' ∉ dS "seealso" ++ '{' :: (lst ++ ['}']) :=
      not_mem_wf (by decide) (by decide) g4 (by decide)
    have hbsL : '\\' ∉ t ++ '|' :: (dS "seealso" ++ '{' :: (lst ++ ['}'])) := by
      intro hm
      rcases List.mem_append.mp hm with h | h
      · exact h3 h
      · rcases List.mem_cons.mp h with h | h
        · exact absurd h (by decide)
        · exact hbsC h
    have hshapeC : ('|' :: (dS "seealso" ++ '{' :: (lst ++ ['}']))) =
        ('|' :: (dS "seealso" ++ '{' :: lst)) ++ ['}'] := by simp
    have s0 : trimS (t ++ '|' :: (dS "seealso" ++ '{' :: (lst ++ ['}'])))
        = t ++ '|' :: (dS "seealso" ++ '{' :: (lst ++ ['}'])) := by
      refine trimS_append_of_clean ht htne ?_ (by simp)
      rw [hshapeC]
      exact rtrimS_append_singleton (by decide)
    have sAt : containsSub (t ++ '|' :: (dS "seealso" ++ '{' :: (lst ++ ['}'])))
        ('@' :: ['\\']) = false := by
      unfold containsSub
      rw [findSub_eq_none_of_mem_not_mem (by decide) hbsL]
      rfl
    have s2 : findSub (t ++ '|' :: (dS "seealso" ++ '{' :: (lst ++ ['}'])))
        (dS "|") = some t.length := findSub_append_char _ h1
    have s3 : (t ++ '|' :: (dS "seealso" ++ '{' :: (lst ++ ['}']))).take t.length = t :=
      take_append_len _ _
    have s4 : (t ++ '|' :: (dS "seealso" ++ '{' :: (lst ++ ['}']))).drop (t.length + 1)
        = dS "seealso" ++ '{' :: (lst ++ ['}']) := drop_append_cons _ _ _
    have s5 : getVectorFromString t (dS "@") false = [t] := gvfs_clean ht htne h2 false
    have s6 : getVectorFromString t (dS "!") false = [t] := gvfs_clean ht htne h4 false
    have s7 : containsSub (t ++ '|' :: (dS "seealso" ++ '{' :: (lst ++ ['}'])))
        ('|' :: ['(']) = false := by
      unfold containsSub
      rw [findSub_pair_none h1 hbarC (by simp [dS])]
      rfl
    have s8 : containsSub (t ++ '|' :: (dS "seealso" ++ '{' :: (lst ++ ['}'])))
        ('|' :: [')']) = false := by
      unfold containsSub
      rw [findSub_pair_none h1 hbarC (by simp [dS])]
      rfl
    have s9 : (dS "seealso" ++ '{' :: (lst ++ ['}'])).take 3 = dS "see" := by
      rw [take_append_le (by decide)]
      decide
    have s10 : unescapeBraces (dS "seealso" ++ '{' :: (lst ++ ['}'])) =
        dS "seealso" ++ '{' :: (lst ++ ['}']) := unescapeBraces_of_no_backslash hbsC
    have s11 : (dS "seealso" ++ '{' :: (lst ++ ['}'])).take 7 = dS "seealso" := by
      rw [take_append_le (by decide)]
      decide
    have s12 : bracketContent (dS "seealso" ++ '{' :: (lst ++ ['}'])) = lst :=
      bracketContent_wellformed (by decide) (by decide) g3
    have s13 : afterBracket (dS "seealso" ++ '{' :: (lst ++ ['}'])) = [] :=
      afterBracket_wellformed (by decide) g3
    simp only [docbook, s0, sAt, s2, s3, s4, s5, s6, s7, s8]
    simp [s9, s10, s11, s12, s13, typeAttr, hlstE]

/-- C7 witness. -/
theorem c7_see_seealso_witness :
    (docbook false []
        (dS "Peter" ++ '|' :: (dS "see" ++ '{' :: (dS "Jones" ++ ['}'])))
        rangeStateInit).1 =
      [XMLItem.startTag (dS "indexterm") [],
       XMLItem.startTag (dS "primary") [],
       XMLItem.text (dS "Peter"), XMLItem.endTag (dS "primary"),
       XMLItem.startTag (dS "see") [], XMLItem.text (dS "Jones"),
       XMLItem.endTag (dS "see"),
       XMLItem.endTag (dS "indexterm")] := by
  have h := c7_see_seealso (dS "Peter") (dS "Jones") rangeStateInit
    (by decide) (by decide) (by decide) (by decide) (by decide) (by decide)
    (by decide) (by decide) (by decide) (by decide)
  rw [h.1]
  decide

/-! Claim C1: range-identifier disambiguation. -/

theorem mem_knownInsert_self (s : DocString) (l : List DocString) :
    s ∈ knownInsert s l := by
  unfold knownInsert
  by_cases h : s ∈ l
  · simp [h]
  · simp [h]

/-- C1.  Two independent range pairs with textually identical term lists
(`term|(`, `term|)`, then again `term|(`, `term|)`), processed in
sequence in one worker-context scope (any state in which the term is not
yet known): the two pairs receive distinct identifiers (the bare term
for the first pair, the term with the counter suffix for the second),
each end-of-range back-reference equals the identifier of its
corresponding start exactly, the counter suffix appears only from the
second occurrence of the identical term list onward, and the counter is
incremented only when the matching end-of-range is processed (the state
after each of the four steps is listed explicitly). -/
theorem c1_range_disambiguation (t : DocString) (st0 : RangeState)
    (ht : trimS t = t) (htne : t ≠ [])
    (h1 : '|' ∉ t) (h2 : '@' ∉ t) (h3 : '\\' ∉ t) (h4 : '!' ∉ t)
    (hknown : t ∉ st0.known) :
    docbook false [] (t ++ ['|', '(']) st0 =
      ([XMLItem.startTag (dS "indexterm") (startRangeAttrs [] (cleanID t)),
        XMLItem.startTag (dS "primary") [], XMLItem.text t,
        XMLItem.endTag (dS "primary"), XMLItem.endTag (dS "indexterm")], st0) ∧
    docbook false [] (t ++ ['|', ')']) st0 =
      ([XMLItem.compTag (dS "indexterm") (endRangeAttrs (cleanID t))],
       ⟨knownInsert t st0.known, st0.ctr⟩) ∧
    docbook false [] (t ++ ['|', '(']) ⟨knownInsert t st0.known, st0.ctr⟩ =
      ([XMLItem.startTag (dS "indexterm")
          (startRangeAttrs [] (cleanID (t ++ '-' :: intText st0.ctr))),
        XMLItem.startTag (dS "primary") [], XMLItem.text t,
        XMLItem.endTag (dS "primary"), XMLItem.endTag (dS "indexterm")],
       ⟨knownInsert t st0.known, st0.ctr⟩) ∧
    docbook false [] (t ++ ['|', ')']) ⟨knownInsert t st0.known, st0.ctr⟩ =
      ([XMLItem.compTag (dS "indexterm")
          (endRangeAttrs (cleanID (t ++ '-' :: intText st0.ctr)))],
       ⟨knownInsert t st0.known, st0.ctr + 1⟩) ∧
    cleanID t ≠ cleanID (t ++ '-' :: intText st0.ctr) := by
  have hbsL1 : '\\' ∉ t ++ ['|', '('] := by
    intro hm
    rcases List.mem_append.mp hm with h | h
    · exact h3 h
    · exact absurd h (by decide)
  have hbsL2 : '\\' ∉ t ++ ['|', ')'] := by
    intro hm
    rcases List.mem_append.mp hm with h | h
    · exact h3 h
    · exact absurd h (by decide)
  have s5 : getVectorFromString t (dS "@") false = [t] := gvfs_clean ht htne h2 false
  have s6 : getVectorFromString t (dS "!") false = [t] := gvfs_clean ht htne h4 false
  have hstart : ∀ s : RangeState, docbook false [] (t ++ ['|', '(']) s =
      ([XMLItem.startTag (dS "indexterm")
          (startRangeAttrs []
            (cleanID (if t ∈ s.known then t ++ '-' :: intText s.ctr else t))),
        XMLItem.startTag (dS "primary") [], XMLItem.text t,
        XMLItem.endTag (dS "primary"), XMLItem.endTag (dS "indexterm")],
       ⟨s.known, s.ctr⟩) := by
    intro s
    have s0 : trimS (t ++ ['|', '(']) = t ++ ['|', '('] :=
      trimS_append_of_clean ht htne (by decide) (by decide)
    have sAt : containsSub (t ++ ['|', '(']) ('@' :: ['\\']) = false := by
      unfold containsSub
      rw [findSub_eq_none_of_mem_not_mem (by decide) hbsL1]
      rfl
    have s2 : findSub (t ++ ['|', '(']) (dS "|") = some t.length :=
      findSub_append_char _ h1
    have s3 : (t ++ ['|', '(']).take t.length = t := take_append_len _ _
    have s4 : (t ++ ['|', '(']).drop (t.length + 1) = ['('] := drop_append_cons _ _ _
    have s7 : containsSub (t ++ ['|', '(']) ('|' :: ['(']) = true := by
      unfold containsSub
      rw [findSub_append_pair [] h1]
      rfl
    have s8 : containsSub (t ++ ['|', '(']) ('|' :: [')']) = false := by
      unfold containsSub
      rw [findSub_pair_none h1 (by decide) (by decide)]
      rfl
    have e1 : eraseAllBar ['('] ('|' :: ['(']) = ['('] := by decide
    have e2 : eraseAllBar ['('] ('|' :: [')']) = ['('] := by decide
    simp only [docbook, s0, sAt, s2, s3, s4, s5, s6, s7, s8]
    simp [e1, e2, typeAttr, intText, dS]
  have hend : ∀ s : RangeState, docbook false [] (t ++ ['|', ')']) s =
      ([XMLItem.compTag (dS "indexterm")
          (endRangeAttrs
            (cleanID (if t ∈ s.known then t ++ '-' :: intText s.ctr else t)))],
       ⟨if t ∈ s.known then s.known else knownInsert t s.known,
        if t ∈ s.known then s.ctr + 1 else s.ctr⟩) := by
    intro s
    have s0 : trimS (t ++ ['|', ')']) = t ++ ['|', ')'] :=
      trimS_append_of_clean ht htne (by decide) (by decide)
    have sAt : containsSub (t ++ ['|', ')']) ('@' :: ['\\']) = false := by
      unfold containsSub
      rw [findSub_eq_none_of_mem_not_mem (by decide) hbsL2]
      rfl
    have s2 : findSub (t ++ ['|', ')']) (dS "|") = some t.length :=
      findSub_append_char _ h1
    have s3 : (t ++ ['|', ')']).take t.length = t := take_append_len _ _
    have s4 : (t ++ ['|', ')']).drop (t.length + 1) = [')'] := drop_append_cons _ _ _
    have s7 : containsSub (t ++ ['|', ')']) ('|' :: ['(']) = false := by
      unfold containsSub
      rw [findSub_pair_none h1 (by decide) (by decide)]
      rfl
    have s8 : containsSub (t ++ ['|', ')']) ('|' :: [')']) = true := by
      unfold containsSub
      rw [findSub_append_pair [] h1]
      rfl
    have e1 : eraseAllBar [')'] ('|' :: ['(']) = [')'] := by decide
    have e2 : eraseAllBar [')'] ('|' :: [')']) = [')'] := by decide
    simp only [docbook, s0, sAt, s2, s3, s4, s5, s6, s7, s8]
    simp [e1, e2, typeAttr, intText, dS]
  have m1 : t ∈ knownInsert t st0.known := mem_knownInsert_self t st0.known
  refine ⟨?_, ?_, ?_, ?_, ?_⟩
  · rw [hstart st0]
    simp [hknown]
  · rw [hend st0]
    simp [hknown]
  · rw [hstart ⟨knownInsert t st0.known, st0.ctr⟩]
    simp [m1, intText]
  · rw [hend ⟨knownInsert t st0.known, st0.ctr⟩]
    simp [m1, intText]
  · intro hh
    have hlen := congrArg List.length hh
    simp [cleanID, List.length_append] at hlen

/-- C1 witness. -/
theorem c1_range_disambiguation_witness :
    (docbook false [] (dS "Term" ++ ['|', '(']) rangeStateInit =
      ([XMLItem.startTag (dS "indexterm") (startRangeAttrs [] (cleanID (dS "Term"))),
        XMLItem.startTag (dS "primary") [], XMLItem.text (dS "Term"),
        XMLItem.endTag (dS "primary"), XMLItem.endTag (dS "indexterm")],
       rangeStateInit)) ∧
    cleanID (dS "Term") ≠ cleanID (dS "Term" ++ '-' :: intText rangeStateInit.ctr) := by
  have h := c1_range_disambiguation (dS "Term") rangeStateInit
    (by decide) (by decide) (by decide) (by decide) (by decide) (by decide)
    (by decide)
  exact ⟨h.1, h.2.2.2.2⟩

/-! C4: the tag balance and run counts of the `xhtml` tree builder. -/

/-- C4.  Counterexample: the claim fails as stated.  First, on a single
collected entry with an empty index term the builder emits an `</li>`
with no matching `<li>` (the final closing loop runs once although
nothing was opened).  Second, with the case-variant main terms
`"A ! x"`, `"a ! y"`, `"A ! z"` the case-insensitive sort interleaves
the runs `A, a, A`, so three subentry lists are opened although only two
distinct main terms occur. -/
theorem c4_balance_counterexample :
    (countStartTag (dS "li")
        (printIndexXhtml false (dS "idx") (dS "h2") [] []
          [⟨[], [], dS "L", true⟩]) = 0 ∧
     countEndTag (dS "li")
        (printIndexXhtml false (dS "idx") (dS "h2") [] []
          [⟨[], [], dS "L", true⟩]) = 1) ∧
    (countStartTagAttr (dS "ul") subAttr
        (printIndexXhtml false (dS "idx") (dS "h2") [] []
          [⟨dS "A ! x", dS "A ! x", dS "l1", true⟩,
           ⟨dS "a ! y", dS "a ! y", dS "l2", true⟩,
           ⟨dS "A ! z", dS "A ! z", dS "l3", true⟩]) = 3 ∧
     (([⟨dS "A ! x", dS "A ! x", dS "l1", true⟩,
        ⟨dS "a ! y", dS "a ! y", dS "l2", true⟩,
        ⟨dS "A ! z", dS "A ! z", dS "l3", true⟩] :
          List TocEntry).map
        (fun e => (mkIndexEntry e.str).main)).dedup.length = 2) := by
  decide

theorem mem_ltrimS {c : Char} : ∀ {s : DocString}, c ∈ ltrimS s → c ∈ s := by
  intro s
  induction s with
  | nil => intro h; exact h
  | cons a t ih =>
    intro h
    by_cases ha : isSpaceChar a = true
    · have he : ltrimS (a :: t) = ltrimS t := by
        simp [ltrimS, List.dropWhile, ha]
      rw [he] at h
      exact List.mem_cons_of_mem a (ih h)
    · have he : ltrimS (a :: t) = a :: t := by
        simp [ltrimS, List.dropWhile, ha]
      rw [he] at h
      exact h

theorem mem_rtrimS {c : Char} {s : DocString} (h : c ∈ rtrimS s) : c ∈ s := by
  unfold rtrimS at h
  rw [List.mem_reverse] at h
  have h2 : c ∈ ltrimS s.reverse := h
  exact List.mem_reverse.mp (mem_ltrimS h2)

theorem mem_trimS {c : Char} {s : DocString} (h : c ∈ trimS s) : c ∈ s := by
  have h1 : c ∈ ltrimS (rtrimS s) := h
  exact mem_rtrimS (mem_ltrimS h1)

theorem parseItem_mode {x : DocString} (h : '@' ∉ x) (b : Bool) :
    parseItem x b = parseItem x false := by
  have hn : findSub x (dS "@") = none :=
    findSub_eq_none_of_mem_not_mem (by decide) h
  simp [parseItem, hn]

theorem extract_mem {entry : DocString} {c : Char} :
    (c ∈ (extractSubentries entry).1 → c ∈ entry) ∧
    (c ∈ (extractSubentries entry).2.1 → c ∈ entry) ∧
    (c ∈ (extractSubentries entry).2.2 → c ∈ entry) := by
  by_cases he : entry.isEmpty = true
  · simp [extractSubentries, he]
  · cases h1 : findSub entry (dS " ! ") with
    | none => simp [extractSubentries, he, h1]
    | some loc =>
      cases h2 : findSubFrom entry (dS " ! ") (loc + 3) with
      | none =>
        simp only [extractSubentries, he, h1, h2, if_false, Bool.false_eq_true]
        refine ⟨fun hc => ?_, fun hc => ?_, fun hc => ?_⟩
        · exact List.mem_of_mem_take (mem_trimS hc)
        · exact List.mem_of_mem_drop (mem_trimS hc)
        · exact absurd hc (List.not_mem_nil c)
      | some loc2 =>
        simp only [extractSubentries, he, h1, h2, if_false, Bool.false_eq_true]
        refine ⟨fun hc => ?_, fun hc => ?_, fun hc => ?_⟩
        · exact List.mem_of_mem_take (mem_trimS hc)
        · exact List.mem_of_mem_drop (List.mem_of_mem_take (mem_trimS hc))
        · exact List.mem_of_mem_drop (mem_trimS hc)

theorem displayTriple_raw {s : DocString} (h : '@' ∉ s) :
    displayTriple s =
      ((mkIndexEntry s).main, (mkIndexEntry s).sub, (mkIndexEntry s).subsub) := by
  rcases hE : extractSubentries s with ⟨m, s1, s2⟩
  have hm : '@' ∉ m := fun hc => h (extract_mem.1 (by rw [hE]; exact hc))
  have hs1 : '@' ∉ s1 := fun hc => h (extract_mem.2.1 (by rw [hE]; exact hc))
  have hs2 : '@' ∉ s2 := fun hc => h (extract_mem.2.2 (by rw [hE]; exact hc))
  simp [displayTriple, mkIndexEntry, hE, parseItem_mode hm,
    parseItem_mode hs1, parseItem_mode hs2]

theorem IndexEntry.equal_eq {a b : IndexEntry} (h : a.equal b = true) : a = b := by
  obtain ⟨m1, s1, ss1⟩ := a
  obtain ⟨m2, s2, ss2⟩ := b
  simp only [IndexEntry.equal, Bool.and_eq_true, beq_iff_eq] at h
  simp [h.1.1, h.1.2, h.2]

theorem cmpNoCase_refl : ∀ s : DocString, cmpNoCase s s = Ordering.eq := by
  intro s
  induction s with
  | nil => rfl
  | cons a t ih => simp [cmpNoCase, ih]

theorem lt_sub_nonempty {p L : IndexEntry} (h : IndexEntry.lt p L = false)
    (hm : p.main = L.main) (hL : L.sub ≠ []) : p.sub ≠ [] := by
  intro hp
  obtain ⟨c, cs, hcc⟩ : ∃ c cs, L.sub = c :: cs := by
    cases hx : L.sub with
    | nil => exact absurd hx hL
    | cons c cs => exact ⟨c, cs, rfl⟩
  simp only [IndexEntry.lt, cmpEntry, hm, cmpNoCase_refl, hp, hcc] at h
  simp [cmpNoCase] at h
  exact absurd h (by decide)

theorem lt_subsub_nonempty {p L : IndexEntry} (h : IndexEntry.lt p L = false)
    (hm : p.main = L.main) (hs : p.sub = L.sub) (hL : L.subsub ≠ []) :
    p.subsub ≠ [] := by
  intro hp
  obtain ⟨c, cs, hcc⟩ : ∃ c cs, L.subsub = c :: cs := by
    cases hx : L.subsub with
    | nil => exact absurd hx hL
    | cons c cs => exact ⟨c, cs, rfl⟩
  simp only [IndexEntry.lt, cmpEntry, hm, hs, cmpNoCase_refl, hp, hcc] at h
  simp [cmpNoCase] at h
  exact absurd h (by decide)

theorem lt_empty_last {p : IndexEntry} (h : p.main ≠ []) :
    IndexEntry.lt p ⟨[], [], []⟩ = false := by
  obtain ⟨c, cs, hcc⟩ : ∃ c cs, p.main = c :: cs := by
    cases hx : p.main with
    | nil => exact absurd hx h
    | cons c cs => exact ⟨c, cs, rfl⟩
  simp [IndexEntry.lt, cmpEntry, hcc, cmpNoCase]
  decide

theorem insertSorted_perm (lt : α → α → Bool) (x : α) :
    ∀ l : List α, (insertSorted lt x l).Perm (x :: l) := by
  intro l
  induction l with
  | nil => exact List.Perm.refl _
  | cons y ys ih =>
    by_cases h : lt x y = true
    · simp [insertSorted, h]
    · rw [insertSorted, if_neg h]
      exact (ih.cons y).trans (List.Perm.swap x y ys)

theorem foldl_insert_perm (lt : α → α → Bool) :
    ∀ l acc : List α,
      (l.foldl (fun a x => insertSorted lt x a) acc).Perm (l ++ acc) := by
  intro l
  induction l with
  | nil =>
    intro acc
    simp only [List.foldl, List.nil_append]
    exact List.Perm.refl acc
  | cons x xs ih =>
    intro acc
    have h1 := ih (insertSorted lt x acc)
    have h2 : (xs ++ insertSorted lt x acc).Perm (xs ++ (x :: acc)) :=
      List.Perm.append_left xs (insertSorted_perm lt x acc)
    have h3 : (xs ++ (x :: acc)).Perm (x :: (xs ++ acc)) := List.perm_middle
    simpa using (h1.trans h2).trans h3

theorem mem_stableSort {lt : α → α → Bool} {l : List α} {a : α} :
    a ∈ stableSort lt l ↔ a ∈ l := by
  have h := (foldl_insert_perm lt l []).mem_iff (a := a)
  rw [stableSort]
  simpa using h

theorem countP_range_flatMap (q : XMLItem → Bool) (L : List XMLItem) :
    ∀ n : Nat,
      (((List.range n).flatMap (fun _ => L)).countP q) = n * L.countP q := by
  intro n
  induction n with
  | zero => simp
  | succ m ih =>
    rw [List.range_succ, List.flatMap_append, List.countP_append, ih]
    simp [List.flatMap]
    ring

set_option maxHeartbeats 2000000 in
theorem stepEntry_counts (p : PEntry) (st : LoopState)
    (hdt : displayTriple p.rendered = (p.ie.main, p.ie.sub, p.ie.subsub))
    (hpm : p.ie.main ≠ [])
    (hord : IndexEntry.lt p.ie st.last = false)
    (hlvl : st.level = lvl st.last)
    (hlo : -1 ≤ st.entryNumber)
    (hinit : st.entryNumber = -1 → st.last = ⟨[], [], []⟩) :
    (stepEntry p st).2.last = p.ie ∧
    (stepEntry p st).2.level = lvl p.ie ∧
    1 ≤ (stepEntry p st).2.entryNumber ∧
    countStartTag (dS "li") (stepEntry p st).1 + st.level =
      countEndTag (dS "li") (stepEntry p st).1 + lvl p.ie +
        (if st.entryNumber = -1 then 1 else 0) ∧
    countStartTag (dS "ul") (stepEntry p st).1 + st.level =
      countEndTag (dS "ul") (stepEntry p st).1 + lvl p.ie ∧
    countStartTag (dS "a") (stepEntry p st).1 =
      countEndTag (dS "a") (stepEntry p st).1 ∧
    countStartTag (dS "div") (stepEntry p st).1 = 0 ∧
    countEndTag (dS "div") (stepEntry p st).1 = 0 ∧
    countStartTagAttr (dS "li") liMainAttr (stepEntry p st).1 =
      (if p.ie.main = st.last.main then 0 else 1) ∧
    countStartTagAttr (dS "ul") subAttr (stepEntry p st).1 =
      (if p.ie.main = st.last.main then
        (if st.last.sub = [] ∧ p.ie.sub ≠ [] then 1 else 0)
       else (if p.ie.sub ≠ [] then 1 else 0)) ∧
    countStartTagAttr (dS "ul") subsubAttr (stepEntry p st).1 =
      (if p.ie.main = st.last.main ∧ p.ie.sub = st.last.sub then
        (if p.ie.subsub ≠ [] ∧ p.ie.sub ≠ [] ∧ st.last.subsub = [] then 1 else 0)
       else (if p.ie.subsub ≠ [] ∧ p.ie.sub ≠ [] then 1 else 0)) ∧
    countStartTagAttr (dS "ul") (quoteAttr (dS "class") (dS "main"))
      (stepEntry p st).1 = 0 := by
  by_cases hEq : p.ie.equal st.last = true
  · have hpe : p.ie = st.last := IndexEntry.equal_eq hEq
    have hen : ¬(st.entryNumber = -1) := by
      intro h
      apply hpm
      rw [hpe, hinit h]
    have henb : (st.entryNumber == -1) = false := beq_eq_false_iff_ne.mpr hen
    have hL : st.level = lvl p.ie := by rw [hlvl, hpe]
    have hne1 : ¬(p.ie.sub = [] ∧ p.ie.sub ≠ []) := fun hx => hx.2 hx.1
    have hne2 : ¬(p.ie.subsub ≠ [] ∧ p.ie.sub ≠ [] ∧ p.ie.subsub = []) :=
      fun hx => hx.1 hx.2.2
    have hself : p.ie.equal p.ie = true := by simp [IndexEntry.equal]
    simp [stepEntry, henb, hEq, hself, linkItems, countStartTag, countEndTag,
      countStartTagAttr, List.countP_cons, dS, aHref, hL, hen, ← hpe, hne1, hne2]
    omega
  · have hEqF : p.ie.equal st.last = false := by
      cases hq : p.ie.equal st.last with
      | false => rfl
      | true => exact absurd hq hEq
    by_cases hen : st.entryNumber = -1
    · have hlast : st.last = ⟨[], [], []⟩ := hinit hen
      have hl1 : st.level = 1 := by rw [hlvl, hlast]; rfl
      have henb : (st.entryNumber == -1) = true := by simp [hen]
      by_cases hsub : p.ie.sub = []
      · simp [stepEntry, henb, hEqF, openSteps, linkItems, hdt, hlast, hl1, lvl,
          hpm, hsub, hen, countStartTag, countEndTag, countStartTagAttr,
          List.countP_append, List.countP_cons, dS, aHref, subAttr, subsubAttr,
          liMainAttr, quoteAttr]
      · by_cases hss : p.ie.subsub = []
        · simp [stepEntry, henb, hEqF, openSteps, linkItems, hdt, hlast, hl1, lvl,
            hpm, hsub, hss, hen, countStartTag, countEndTag, countStartTagAttr,
            List.countP_append, List.countP_cons, dS, aHref, subAttr, subsubAttr,
            liMainAttr, quoteAttr]
        · simp [stepEntry, henb, hEqF, openSteps, linkItems, hdt, hlast, hl1, lvl,
            hpm, hsub, hss, hen, countStartTag, countEndTag, countStartTagAttr,
            List.countP_append, List.countP_cons, dS, aHref, subAttr, subsubAttr,
            liMainAttr, quoteAttr]
    · have henb : (st.entryNumber == -1) = false := beq_eq_false_iff_ne.mpr hen
      by_cases hm : p.ie.main = st.last.main
      · by_cases hsv : p.ie.sub = st.last.sub
        · by_cases hls : st.last.sub = []
          · have hps : p.ie.sub = [] := by rw [hsv, hls]
            have hl1 : st.level = 1 := by rw [hlvl]; simp [lvl, hls]
            simp [stepEntry, henb, hEqF, closeSteps, openSteps, linkItems,
              IndexEntry.same_sub, IndexEntry.same_main, hdt, lvl, hen, hm, hsv,
              hls, hps, hl1, countStartTag, countEndTag, countStartTagAttr,
              List.countP_append, List.countP_cons, dS, aHref, subAttr, subsubAttr,
              liMainAttr, quoteAttr]
          · have hps : p.ie.sub ≠ [] := by rw [hsv]; exact hls
            by_cases hlss : st.last.subsub = []
            · have hl2 : st.level = 2 := by rw [hlvl]; simp [lvl, hls, hlss]
              by_cases hss : p.ie.subsub = []
              · simp [stepEntry, henb, hEqF, closeSteps, openSteps, linkItems,
                  IndexEntry.same_sub, IndexEntry.same_main, hdt, lvl, hen, hm, hsv,
                  hls, hlss, hps, hss, hl2, countStartTag, countEndTag,
                  countStartTagAttr, List.countP_append, List.countP_cons, dS,
                  aHref, subAttr, subsubAttr, liMainAttr, quoteAttr]
              · simp [stepEntry, henb, hEqF, closeSteps, openSteps, linkItems,
                  IndexEntry.same_sub, IndexEntry.same_main, hdt, lvl, hen, hm, hsv,
                  hls, hlss, hps, hss, hl2, countStartTag, countEndTag,
                  countStartTagAttr, List.countP_append, List.countP_cons, dS,
                  aHref, subAttr, subsubAttr, liMainAttr, quoteAttr]
            · have hl3 : st.level = 3 := by rw [hlvl]; simp [lvl, hls, hlss]
              have hpss : p.ie.subsub ≠ [] := lt_subsub_nonempty hord hm hsv hlss
              simp [stepEntry, henb, hEqF, closeSteps, openSteps, linkItems,
                IndexEntry.same_sub, IndexEntry.same_main, hdt, lvl, hen, hm, hsv,
                hls, hlss, hps, hpss, hl3, countStartTag, countEndTag,
                countStartTagAttr, List.countP_append, List.countP_cons, dS,
                aHref, subAttr, subsubAttr, liMainAttr, quoteAttr]
        · by_cases hls : st.last.sub = []
          · have hps : p.ie.sub ≠ [] := fun h => hsv (h.trans hls.symm)
            have hl1 : st.level = 1 := by rw [hlvl]; simp [lvl, hls]
            by_cases hss : p.ie.subsub = []
            · simp [stepEntry, henb, hEqF, closeSteps, openSteps, linkItems,
                IndexEntry.same_sub, IndexEntry.same_main, hdt, lvl, hen, hm, hsv,
                hls, hps, hss, hl1, countStartTag, countEndTag, countStartTagAttr,
                List.countP_append, List.countP_cons, dS, aHref, subAttr,
                subsubAttr, liMainAttr, quoteAttr]
            · simp [stepEntry, henb, hEqF, closeSteps, openSteps, linkItems,
                IndexEntry.same_sub, IndexEntry.same_main, hdt, lvl, hen, hm, hsv,
                hls, hps, hss, hl1, countStartTag, countEndTag, countStartTagAttr,
                List.countP_append, List.countP_cons, dS, aHref, subAttr,
                subsubAttr, liMainAttr, quoteAttr]
          · have hps : p.ie.sub ≠ [] := lt_sub_nonempty hord hm hls
            by_cases hlss : st.last.subsub = []
            · have hl2 : st.level = 2 := by rw [hlvl]; simp [lvl, hls, hlss]
              by_cases hss : p.ie.subsub = []
              · simp [stepEntry, henb, hEqF, closeSteps, openSteps, linkItems,
                  IndexEntry.same_sub, IndexEntry.same_main, hdt, lvl, hen, hm, hsv,
                  hls, hlss, hps, hss, hl2, countStartTag, countEndTag,
                  countStartTagAttr, List.countP_append, List.countP_cons, dS,
                  aHref, subAttr, subsubAttr, liMainAttr, quoteAttr]
              · simp [stepEntry, henb, hEqF, closeSteps, openSteps, linkItems,
                  IndexEntry.same_sub, IndexEntry.same_main, hdt, lvl, hen, hm, hsv,
                  hls, hlss, hps, hss, hl2, countStartTag, countEndTag,
                  countStartTagAttr, List.countP_append, List.countP_cons, dS,
                  aHref, subAttr, subsubAttr, liMainAttr, quoteAttr]
            · have hl3 : st.level = 3 := by rw [hlvl]; simp [lvl, hls, hlss]
              by_cases hss : p.ie.subsub = []
              · simp [stepEntry, henb, hEqF, closeSteps, openSteps, linkItems,
                  IndexEntry.same_sub, IndexEntry.same_main, hdt, lvl, hen, hm, hsv,
                  hls, hlss, hps, hss, hl3, countStartTag, countEndTag,
                  countStartTagAttr, List.countP_append, List.countP_cons, dS,
                  aHref, subAttr, subsubAttr, liMainAttr, quoteAttr]
              · simp [stepEntry, henb, hEqF, closeSteps, openSteps, linkItems,
                  IndexEntry.same_sub, IndexEntry.same_main, hdt, lvl, hen, hm, hsv,
                  hls, hlss, hps, hss, hl3, countStartTag, countEndTag,
                  countStartTagAttr, List.countP_append, List.countP_cons, dS,
                  aHref, subAttr, subsubAttr, liMainAttr, quoteAttr]
      · by_cases hls : st.last.sub = []
        · have hl1 : st.level = 1 := by rw [hlvl]; simp [lvl, hls]
          by_cases hsub : p.ie.sub = []
          · simp [stepEntry, henb, hEqF, closeSteps, openSteps, linkItems,
              IndexEntry.same_sub, IndexEntry.same_main, hdt, lvl, hen, hm, hls,
              hsub, hl1, countStartTag, countEndTag, countStartTagAttr,
              List.countP_append, List.countP_cons, dS, aHref, subAttr, subsubAttr,
              liMainAttr, quoteAttr]
          · by_cases hss : p.ie.subsub = []
            · simp [stepEntry, henb, hEqF, closeSteps, openSteps, linkItems,
                IndexEntry.same_sub, IndexEntry.same_main, hdt, lvl, hen, hm, hls,
                hsub, hss, hl1, countStartTag, countEndTag, countStartTagAttr,
                List.countP_append, List.countP_cons, dS, aHref, subAttr,
                subsubAttr, liMainAttr, quoteAttr]
            · simp [stepEntry, henb, hEqF, closeSteps, openSteps, linkItems,
                IndexEntry.same_sub, IndexEntry.same_main, hdt, lvl, hen, hm, hls,
                hsub, hss, hl1, countStartTag, countEndTag, countStartTagAttr,
                List.countP_append, List.countP_cons, dS, aHref, subAttr,
                subsubAttr, liMainAttr, quoteAttr]
        · by_cases hlss : st.last.subsub = []
          · have hl2 : st.level = 2 := by rw [hlvl]; simp [lvl, hls, hlss]
            by_cases hsub : p.ie.sub = []
            · simp [stepEntry, henb, hEqF, closeSteps, openSteps, linkItems,
                IndexEntry.same_sub, IndexEntry.same_main, hdt, lvl, hen, hm, hls,
                hlss, hsub, hl2, countStartTag, countEndTag, countStartTagAttr,
                List.countP_append, List.countP_cons, dS, aHref, subAttr,
                subsubAttr, liMainAttr, quoteAttr]
            · by_cases hss : p.ie.subsub = []
              · simp [stepEntry, henb, hEqF, closeSteps, openSteps, linkItems,
                  IndexEntry.same_sub, IndexEntry.same_main, hdt, lvl, hen, hm, hls,
                  hlss, hsub, hss, hl2, countStartTag, countEndTag,
                  countStartTagAttr, List.countP_append, List.countP_cons, dS,
                  aHref, subAttr, subsubAttr, liMainAttr, quoteAttr]
              · simp [stepEntry, henb, hEqF, closeSteps, openSteps, linkItems,
                  IndexEntry.same_sub, IndexEntry.same_main, hdt, lvl, hen, hm, hls,
                  hlss, hsub, hss, hl2, countStartTag, countEndTag,
                  countStartTagAttr, List.countP_append, List.countP_cons, dS,
                  aHref, subAttr, subsubAttr, liMainAttr, quoteAttr]
          · have hl3 : st.level = 3 := by rw [hlvl]; simp [lvl, hls, hlss]
            by_cases hsub : p.ie.sub = []
            · simp [stepEntry, henb, hEqF, closeSteps, openSteps, linkItems,
                IndexEntry.same_sub, IndexEntry.same_main, hdt, lvl, hen, hm, hls,
                hlss, hsub, hl3, countStartTag, countEndTag, countStartTagAttr,
                List.countP_append, List.countP_cons, dS, aHref, subAttr,
                subsubAttr, liMainAttr, quoteAttr]
            · by_cases hss : p.ie.subsub = []
              · simp [stepEntry, henb, hEqF, closeSteps, openSteps, linkItems,
                  IndexEntry.same_sub, IndexEntry.same_main, hdt, lvl, hen, hm, hls,
                  hlss, hsub, hss, hl3, countStartTag, countEndTag,
                  countStartTagAttr, List.countP_append, List.countP_cons, dS,
                  aHref, subAttr, subsubAttr, liMainAttr, quoteAttr]
              · simp [stepEntry, henb, hEqF, closeSteps, openSteps, linkItems,
                  IndexEntry.same_sub, IndexEntry.same_main, hdt, lvl, hen, hm, hls,
                  hlss, hsub, hss, hl3, countStartTag, countEndTag,
                  countStartTagAttr, List.countP_append, List.countP_cons, dS,
                  aHref, subAttr, subsubAttr, liMainAttr, quoteAttr]

theorem countStartTag_append (n : DocString) (a b : List XMLItem) :
    countStartTag n (a ++ b) = countStartTag n a + countStartTag n b := by
  simp [countStartTag, List.countP_append]

theorem countEndTag_append (n : DocString) (a b : List XMLItem) :
    countEndTag n (a ++ b) = countEndTag n a + countEndTag n b := by
  simp [countEndTag, List.countP_append]

theorem countStartTagAttr_append (n t : DocString) (a b : List XMLItem) :
    countStartTagAttr n t (a ++ b) =
      countStartTagAttr n t a + countStartTagAttr n t b := by
  simp [countStartTagAttr, List.countP_append]

set_option maxHeartbeats 2000000 in
theorem runLoop_counts :
    ∀ (l : List PEntry) (st : LoopState),
      (∀ p ∈ l, displayTriple p.rendered = (p.ie.main, p.ie.sub, p.ie.subsub)) →
      (∀ p ∈ l, p.ie.main ≠ []) →
      (∀ p ∈ l, IndexEntry.lt p.ie st.last = false) →
      List.Pairwise (fun a b => IndexEntry.lt b.ie a.ie = false) l →
      st.level = lvl st.last →
      -1 ≤ st.entryNumber →
      (st.entryNumber = -1 → st.last = ⟨[], [], []⟩) →
      countStartTag (dS "li") (runLoop l st) + st.level =
        countEndTag (dS "li") (runLoop l st) +
          (if st.entryNumber = -1 ∧ l ≠ [] then 1 else 0) ∧
      countStartTag (dS "ul") (runLoop l st) + st.level =
        countEndTag (dS "ul") (runLoop l st) ∧
      countStartTag (dS "a") (runLoop l st) =
        countEndTag (dS "a") (runLoop l st) ∧
      countStartTag (dS "div") (runLoop l st) = 0 ∧
      countEndTag (dS "div") (runLoop l st) = 0 ∧
      countStartTagAttr (dS "li") liMainAttr (runLoop l st) =
        mainRunCount st.last.main l ∧
      countStartTagAttr (dS "ul") subAttr (runLoop l st) =
        subRunCount st.last.main (!st.last.sub.isEmpty) l ∧
      countStartTagAttr (dS "ul") subsubAttr (runLoop l st) =
        subsubRunCount st.last.main st.last.sub (!st.last.subsub.isEmpty) l ∧
      countStartTagAttr (dS "ul") (quoteAttr (dS "class") (dS "main"))
        (runLoop l st) = 0 := by
  intro l
  induction l with
  | nil =>
    intro st _ _ _ _ _ _ _
    simp [runLoop, countStartTag, countEndTag, countStartTagAttr,
      countP_range_flatMap, List.countP_cons, dS,
      mainRunCount, subRunCount, subsubRunCount]
  | cons p r ih =>
    intro st hdt hpm hord hpw hlvl hlo hinit
    obtain ⟨hw1, hw2⟩ := List.pairwise_cons.mp hpw
    obtain ⟨h1, h2, h3, h4, h5, h6, h7, h8, h9, h10, h11, h12⟩ :=
      stepEntry_counts p st (hdt p (by simp)) (hpm p (by simp))
        (hord p (by simp)) hlvl hlo hinit
    obtain ⟨g1, g2, g3, g4, g5, g6, g7, g8, g9⟩ := ih (stepEntry p st).2
      (fun q hq => hdt q (List.mem_cons_of_mem p hq))
      (fun q hq => hpm q (List.mem_cons_of_mem p hq))
      (fun q hq => by rw [h1]; exact hw1 q hq)
      hw2
      (by rw [h2, h1])
      (by omega)
      (fun hc => absurd hc (by omega))
    rw [h1] at g6 g7 g8
    rw [h2] at g1 g2
    have hrun : runLoop (p :: r) st =
        (stepEntry p st).1 ++ runLoop r (stepEntry p st).2 := rfl
    simp only [hrun, countStartTag_append, countEndTag_append,
      countStartTagAttr_append]
    refine ⟨?_, ?_, ?_, ?_, ?_, ?_, ?_, ?_, ?_⟩
    · have hne : ¬((stepEntry p st).2.entryNumber = -1 ∧ r ≠ []) :=
        fun hx => by omega
      rw [if_neg hne] at g1
      by_cases hen : st.entryNumber = -1 <;> simp [hen] at h4 ⊢ <;> omega
    · omega
    · omega
    · omega
    · omega
    · simp only [mainRunCount]
      by_cases hm : p.ie.main = st.last.main
      · simp only [hm] at h9 g6 ⊢
        simp at h9 ⊢
        omega
      · simp [hm] at h9 ⊢
        omega
    · simp only [subRunCount]
      by_cases hm : p.ie.main = st.last.main
      · rw [if_pos hm]
        by_cases hob : st.last.sub = []
        · have hE1 : List.isEmpty st.last.sub = true := by simp [hob]
          by_cases hsub : p.ie.sub = []
          · have hE2 : List.isEmpty p.ie.sub = true := by simp [hsub]
            simp [hm, hob, hsub, hE1, hE2] at h10 g7 ⊢
            omega
          · have hE2 : List.isEmpty p.ie.sub = false := by simp [hsub]
            simp [hm, hob, hsub, hE1, hE2] at h10 g7 ⊢
            omega
        · have hE1 : List.isEmpty st.last.sub = false := by simp [hob]
          have hps : p.ie.sub ≠ [] := lt_sub_nonempty (hord p (by simp)) hm hob
          have hE2 : List.isEmpty p.ie.sub = false := by simp [hps]
          simp [hm, hob, hps, hE1, hE2] at h10 g7 ⊢
          omega
      · rw [if_neg hm]
        by_cases hsub : p.ie.sub = []
        · have hE2 : List.isEmpty p.ie.sub = true := by simp [hsub]
          simp [hm, hsub, hE2] at h10 g7 ⊢
          omega
        · have hE2 : List.isEmpty p.ie.sub = false := by simp [hsub]
          simp [hm, hsub, hE2] at h10 g7 ⊢
          omega
    · simp only [subsubRunCount]
      by_cases hpair : p.ie.main = st.last.main ∧ p.ie.sub = st.last.sub
      · rw [if_pos hpair]
        by_cases hobss : st.last.subsub = []
        · have hE1 : List.isEmpty st.last.subsub = true := by simp [hobss]
          by_cases hss : p.ie.subsub = []
          · have hE2 : List.isEmpty p.ie.subsub = true := by simp [hss]
            simp [hpair.1, hpair.2, hobss, hss, hE1, hE2] at h11 g8 ⊢
            omega
          · have hE2 : List.isEmpty p.ie.subsub = false := by simp [hss]
            by_cases hsub : p.ie.sub = []
            · have hq : st.last.sub = [] := hpair.2.symm.trans hsub
              have hE3 : List.isEmpty st.last.sub = true := by simp [hq]
              simp [hpair.1, hpair.2, hobss, hss, hq, hE1, hE2, hE3] at h11 g8 ⊢
              omega
            · have hq : st.last.sub ≠ [] := fun hx => hsub (hpair.2.trans hx)
              have hE3 : List.isEmpty st.last.sub = false := by simp [hq]
              have hE4 : List.isEmpty p.ie.sub = false := by simp [hsub]
              simp [hpair.1, hpair.2, hobss, hss, hq, hE1, hE2, hE3, hE4] at h11 g8 ⊢
              omega
        · have hE1 : List.isEmpty st.last.subsub = false := by simp [hobss]
          have hpss : p.ie.subsub ≠ [] :=
            lt_subsub_nonempty (hord p (by simp)) hpair.1 hpair.2 hobss
          have hE2 : List.isEmpty p.ie.subsub = false := by simp [hpss]
          simp [hpair.1, hpair.2, hobss, hpss, hE1, hE2] at h11 g8 ⊢
          omega
      · rw [if_neg hpair]
        by_cases hss : p.ie.subsub = []
        · have hE2 : List.isEmpty p.ie.subsub = true := by simp [hss]
          simp [hpair, hss, hE2] at h11 g8 ⊢
          omega
        · have hE2 : List.isEmpty p.ie.subsub = false := by simp [hss]
          by_cases hsub : p.ie.sub = []
          · have hE3 : List.isEmpty p.ie.sub = true := by simp [hsub]
            simp [hpair, hss, hsub, hE2, hE3] at h11 g8 ⊢
            omega
          · have hE3 : List.isEmpty p.ie.sub = false := by simp [hsub]
            simp [hpair, hss, hsub, hE2, hE3] at h11 g8 ⊢
            omega
    · omega

set_option maxHeartbeats 2000000 in
/-- C4.  Amended: for collected entries whose paragraph rendering equals
the raw entry string and contains no `@`, whose parsed main terms are
non-empty, under the (always attainable) hypothesis that the internally
sorted list is pairwise non-decreasing, and with a TOC layout tag other
than `ul` and `li`, the builder emits balanced markup: the `li`, `ul`,
`div` and `a` start and end tag counts agree.  Moreover it opens one
`li class='main'` per maximal run of equal main terms, one
`ul class='subentry'` per such run containing a subentry, one
`ul class='subsubentry'` per maximal (main, sub) run with non-empty sub
containing a sub-subentry, and exactly one `ul class='main'` when some
entry is output. -/
theorem c4_balance_amended (htmltag htmlattr tocclass : DocString)
    (entries : List TocEntry)
    (hht1 : htmltag ≠ dS "ul") (hht2 : htmltag ≠ dS "li")
    (hplain : ∀ e ∈ entries, e.rendered = e.str ∧ '@' ∉ e.str)
    (hmain : ∀ e ∈ entries, (mkIndexEntry e.str).main ≠ [])
    (hsorted : List.Pairwise (fun a b => IndexEntry.lt b.ie a.ie = false)
      (sortedEntries entries)) :
    countStartTag (dS "li")
        (printIndexXhtml false (dS "idx") htmltag htmlattr tocclass entries) =
      countEndTag (dS "li")
        (printIndexXhtml false (dS "idx") htmltag htmlattr tocclass entries) ∧
    countStartTag (dS "ul")
        (printIndexXhtml false (dS "idx") htmltag htmlattr tocclass entries) =
      countEndTag (dS "ul")
        (printIndexXhtml false (dS "idx") htmltag htmlattr tocclass entries) ∧
    countStartTag (dS "div")
        (printIndexXhtml false (dS "idx") htmltag htmlattr tocclass entries) =
      countEndTag (dS "div")
        (printIndexXhtml false (dS "idx") htmltag htmlattr tocclass entries) ∧
    countStartTag (dS "a")
        (printIndexXhtml false (dS "idx") htmltag htmlattr tocclass entries) =
      countEndTag (dS "a")
        (printIndexXhtml false (dS "idx") htmltag htmlattr tocclass entries) ∧
    countStartTagAttr (dS "li") liMainAttr
        (printIndexXhtml false (dS "idx") htmltag htmlattr tocclass entries) =
      mainRunCount [] (sortedEntries entries) ∧
    countStartTagAttr (dS "ul") subAttr
        (printIndexXhtml false (dS "idx") htmltag htmlattr tocclass entries) =
      subRunCount [] false (sortedEntries entries) ∧
    countStartTagAttr (dS "ul") subsubAttr
        (printIndexXhtml false (dS "idx") htmltag htmlattr tocclass entries) =
      subsubRunCount [] [] false (sortedEntries entries) ∧
    countStartTagAttr (dS "ul") (quoteAttr (dS "class") (dS "main"))
        (printIndexXhtml false (dS "idx") htmltag htmlattr tocclass entries) =
      (if (entries.filter (fun e => e.output)).isEmpty then 0 else 1) := by
  cases hes : (entries.filter (fun e => e.output)).isEmpty with
  | true =>
    have hfil : entries.filter (fun e => e.output) = [] := by simpa using hes
    have h0 : printIndexXhtml false (dS "idx") htmltag htmlattr tocclass
        entries = [] := by
      simp [printIndexXhtml, hes]
    have hS : sortedEntries entries = [] := by
      simp [sortedEntries, hfil, stableSort]
    rw [h0, hS]
    simp [countStartTag, countEndTag, countStartTagAttr, mainRunCount,
      subRunCount, subsubRunCount, hes]
  | false =>
    have hfe : entries.filter (fun e => e.output) ≠ [] := by
      intro hh
      rw [hh] at hes
      simp at hes
    obtain ⟨e0, he0⟩ := List.exists_mem_of_ne_nil _ hfe
    have htrans : ∀ p ∈ sortedEntries entries,
        displayTriple p.rendered = (p.ie.main, p.ie.sub, p.ie.subsub) ∧
          p.ie.main ≠ [] := by
      intro p hp
      have hp2 : p ∈ stableSort pLT
          ((entries.filter (fun e => e.output)).map mkPEntry) := hp
      obtain ⟨q, hqf, hqp⟩ := List.mem_map.mp (mem_stableSort.mp hp2)
      have hqe : q ∈ entries := List.mem_of_mem_filter hqf
      obtain ⟨hre, hat⟩ := hplain q hqe
      refine ⟨?_, ?_⟩
      · rw [← hqp]
        show displayTriple q.rendered =
          ((mkIndexEntry q.str).main, (mkIndexEntry q.str).sub,
            (mkIndexEntry q.str).subsub)
        rw [hre]
        exact displayTriple_raw hat
      · rw [← hqp]
        exact hmain q hqe
    have hSmem : mkPEntry e0 ∈ sortedEntries entries :=
      mem_stableSort.mpr (List.mem_map_of_mem mkPEntry he0)
    have hSne : sortedEntries entries ≠ [] := List.ne_nil_of_mem hSmem
    obtain ⟨g1, g2, g3, g4, g5, g6, g7, g8, g9⟩ :=
      runLoop_counts (sortedEntries entries) loopInit
        (fun p hp => (htrans p hp).1)
        (fun p hp => (htrans p hp).2)
        (fun p hp => lt_empty_last ((htrans p hp).2))
        hsorted
        (by decide)
        (by decide)
        (fun _ => rfl)
    rw [if_pos ⟨rfl, hSne⟩] at g1
    have hLlevel : loopInit.level = 1 := rfl
    have hLmain : loopInit.last.main = ([] : DocString) := rfl
    have hLsubflag : (!List.isEmpty loopInit.last.sub) = false := rfl
    have hLssflag : (!List.isEmpty loopInit.last.subsub) = false := rfl
    have hLsub : loopInit.last.sub = ([] : DocString) := rfl
    rw [hLlevel] at g1 g2
    rw [hLmain] at g6
    rw [hLmain, hLsubflag] at g7
    rw [hLmain, hLsub, hLssflag] at g8
    have hps : printIndexXhtml false (dS "idx") htmltag htmlattr tocclass
        entries =
        ([XMLItem.startTag (dS "div")
            (quoteAttr (dS "class") (dS "index " ++ tocclass)),
          XMLItem.startTag htmltag htmlattr,
          XMLItem.text (dS "Index"),
          XMLItem.endTag htmltag,
          XMLItem.startTag (dS "ul") (quoteAttr (dS "class") (dS "main"))] ++
         runLoop (sortedEntries entries) loopInit ++
         [XMLItem.endTag (dS "div"), XMLItem.cr]) := by
      simp [printIndexXhtml, hes, sortedEntries]
    have hb1 : (htmltag == dS "ul") = false := beq_eq_false_iff_ne.mpr hht1
    have hb2 : (htmltag == dS "li") = false := beq_eq_false_iff_ne.mpr hht2
    have d1 : ((dS "div") == (dS "li")) = false := by decide
    have d2 : ((dS "ul") == (dS "li")) = false := by decide
    have d3 : ((dS "div") == (dS "ul")) = false := by decide
    have d4 : ((dS "ul") == (dS "ul")) = true := by decide
    have d5 : ((dS "div") == (dS "a")) = false := by decide
    have d6 : ((dS "ul") == (dS "a")) = false := by decide
    have d7 : ((dS "div") == (dS "div")) = true := by decide
    have d8 : ((dS "ul") == (dS "div")) = false := by decide
    have d9 : (quoteAttr (dS "class") (dS "main") == subAttr) = false := by
      decide
    have d10 : (quoteAttr (dS "class") (dS "main") == subsubAttr) = false := by
      decide
    have d11 : (quoteAttr (dS "class") (dS "main") ==
        quoteAttr (dS "class") (dS "main")) = true := by decide
    rw [hps]
    simp only [countStartTag_append, countEndTag_append,
      countStartTagAttr_append]
    have q1 : countStartTag (dS "li")
        [XMLItem.startTag (dS "div")
            (quoteAttr (dS "class") (dS "index " ++ tocclass)),
          XMLItem.startTag htmltag htmlattr,
          XMLItem.text (dS "Index"),
          XMLItem.endTag htmltag,
          XMLItem.startTag (dS "ul") (quoteAttr (dS "class") (dS "main"))] =
        0 := by
      simp [countStartTag, List.countP_cons, hb2, d1, d2]
    have q2 : countEndTag (dS "li")
        [XMLItem.startTag (dS "div")
            (quoteAttr (dS "class") (dS "index " ++ tocclass)),
          XMLItem.startTag htmltag htmlattr,
          XMLItem.text (dS "Index"),
          XMLItem.endTag htmltag,
          XMLItem.startTag (dS "ul") (quoteAttr (dS "class") (dS "main"))] =
        0 := by
      simp [countEndTag, List.countP_cons, hb2]
    have q3 : countStartTag (dS "li")
        [XMLItem.endTag (dS "div"), XMLItem.cr] = 0 := by
      simp [countStartTag, List.countP_cons]
    have q4 : countEndTag (dS "li")
        [XMLItem.endTag (dS "div"), XMLItem.cr] = 0 := by
      simp [countEndTag, List.countP_cons, d1]
    have q5 : countStartTag (dS "ul")
        [XMLItem.startTag (dS "div")
            (quoteAttr (dS "class") (dS "index " ++ tocclass)),
          XMLItem.startTag htmltag htmlattr,
          XMLItem.text (dS "Index"),
          XMLItem.endTag htmltag,
          XMLItem.startTag (dS "ul") (quoteAttr (dS "class") (dS "main"))] =
        1 := by
      simp [countStartTag, List.countP_cons, hb1, d3, d4]
    have q6 : countEndTag (dS "ul")
        [XMLItem.startTag (dS "div")
            (quoteAttr (dS "class") (dS "index " ++ tocclass)),
          XMLItem.startTag htmltag htmlattr,
          XMLItem.text (dS "Index"),
          XMLItem.endTag htmltag,
          XMLItem.startTag (dS "ul") (quoteAttr (dS "class") (dS "main"))] =
        0 := by
      simp [countEndTag, List.countP_cons, hb1]
    have q7 : countStartTag (dS "ul")
        [XMLItem.endTag (dS "div"), XMLItem.cr] = 0 := by
      simp [countStartTag, List.countP_cons]
    have q8 : countEndTag (dS "ul")
        [XMLItem.endTag (dS "div"), XMLItem.cr] = 0 := by
      simp [countEndTag, List.countP_cons, d3]
    have q9 : countStartTag (dS "a")
        [XMLItem.startTag (dS "div")
            (quoteAttr (dS "class") (dS "index " ++ tocclass)),
          XMLItem.startTag htmltag htmlattr,
          XMLItem.text (dS "Index"),
          XMLItem.endTag htmltag,
          XMLItem.startTag (dS "ul") (quoteAttr (dS "class") (dS "main"))] =
        countEndTag (dS "a")
        [XMLItem.startTag (dS "div")
            (quoteAttr (dS "class") (dS "index " ++ tocclass)),
          XMLItem.startTag htmltag htmlattr,
          XMLItem.text (dS "Index"),
          XMLItem.endTag htmltag,
          XMLItem.startTag (dS "ul") (quoteAttr (dS "class") (dS "main"))] := by
      by_cases hta : htmltag = dS "a"
      · subst hta
        simp [countStartTag, countEndTag, List.countP_cons, d5, d6]
      · have hba : (htmltag == dS "a") = false := beq_eq_false_iff_ne.mpr hta
        simp [countStartTag, countEndTag, List.countP_cons, d5, d6, hba]
    have q10 : countStartTag (dS "a")
        [XMLItem.endTag (dS "div"), XMLItem.cr] = 0 := by
      simp [countStartTag, List.countP_cons]
    have q11 : countEndTag (dS "a")
        [XMLItem.endTag (dS "div"), XMLItem.cr] = 0 := by
      simp [countEndTag, List.countP_cons, d5]
    have q12 : countStartTag (dS "div")
        [XMLItem.startTag (dS "div")
            (quoteAttr (dS "class") (dS "index " ++ tocclass)),
          XMLItem.startTag htmltag htmlattr,
          XMLItem.text (dS "Index"),
          XMLItem.endTag htmltag,
          XMLItem.startTag (dS "ul") (quoteAttr (dS "class") (dS "main"))] =
        countEndTag (dS "div")
        [XMLItem.startTag (dS "div")
            (quoteAttr (dS "class") (dS "index " ++ tocclass)),
          XMLItem.startTag htmltag htmlattr,
          XMLItem.text (dS "Index"),
          XMLItem.endTag htmltag,
          XMLItem.startTag (dS "ul") (quoteAttr (dS "class") (dS "main"))] +
          1 := by
      by_cases htd : htmltag = dS "div"
      · subst htd
        simp [countStartTag, countEndTag, List.countP_cons, d7, d8]
      · have hbd : (htmltag == dS "div") = false := beq_eq_false_iff_ne.mpr htd
        simp [countStartTag, countEndTag, List.countP_cons, d7, d8, hbd]
    have q13 : countStartTag (dS "div")
        [XMLItem.endTag (dS "div"), XMLItem.cr] = 0 := by
      simp [countStartTag, List.countP_cons]
    have q14 : countEndTag (dS "div")
        [XMLItem.endTag (dS "div"), XMLItem.cr] = 1 := by
      simp [countEndTag, List.countP_cons, d7]
    have q15 : countStartTagAttr (dS "li") liMainAttr
        [XMLItem.startTag (dS "div")
            (quoteAttr (dS "class") (dS "index " ++ tocclass)),
          XMLItem.startTag htmltag htmlattr,
          XMLItem.text (dS "Index"),
          XMLItem.endTag htmltag,
          XMLItem.startTag (dS "ul") (quoteAttr (dS "class") (dS "main"))] =
        0 := by
      simp [countStartTagAttr, List.countP_cons, hb2, d1, d2]
    have q16 : countStartTagAttr (dS "li") liMainAttr
        [XMLItem.endTag (dS "div"), XMLItem.cr] = 0 := by
      simp [countStartTagAttr, List.countP_cons]
    have q17 : countStartTagAttr (dS "ul") subAttr
        [XMLItem.startTag (dS "div")
            (quoteAttr (dS "class") (dS "index " ++ tocclass)),
          XMLItem.startTag htmltag htmlattr,
          XMLItem.text (dS "Index"),
          XMLItem.endTag htmltag,
          XMLItem.startTag (dS "ul") (quoteAttr (dS "class") (dS "main"))] =
        0 := by
      simp [countStartTagAttr, List.countP_cons, hb1, d3, d4, d9]
    have q18 : countStartTagAttr (dS "ul") subAttr
        [XMLItem.endTag (dS "div"), XMLItem.cr] = 0 := by
      simp [countStartTagAttr, List.countP_cons]
    have q19 : countStartTagAttr (dS "ul") subsubAttr
        [XMLItem.startTag (dS "div")
            (quoteAttr (dS "class") (dS "index " ++ tocclass)),
          XMLItem.startTag htmltag htmlattr,
          XMLItem.text (dS "Index"),
          XMLItem.endTag htmltag,
          XMLItem.startTag (dS "ul") (quoteAttr (dS "class") (dS "main"))] =
        0 := by
      simp [countStartTagAttr, List.countP_cons, hb1, d3, d4, d10]
    have q20 : countStartTagAttr (dS "ul") subsubAttr
        [XMLItem.endTag (dS "div"), XMLItem.cr] = 0 := by
      simp [countStartTagAttr, List.countP_cons]
    have q21 : countStartTagAttr (dS "ul") (quoteAttr (dS "class") (dS "main"))
        [XMLItem.startTag (dS "div")
            (quoteAttr (dS "class") (dS "index " ++ tocclass)),
          XMLItem.startTag htmltag htmlattr,
          XMLItem.text (dS "Index"),
          XMLItem.endTag htmltag,
          XMLItem.startTag (dS "ul") (quoteAttr (dS "class") (dS "main"))] =
        1 := by
      simp [countStartTagAttr, List.countP_cons, hb1, d3, d4, d11]
    have q22 : countStartTagAttr (dS "ul") (quoteAttr (dS "class") (dS "main"))
        [XMLItem.endTag (dS "div"), XMLItem.cr] = 0 := by
      simp [countStartTagAttr, List.countP_cons]
    simp only [Bool.false_eq_true, if_false]
    omega

/-- C4 witness. -/
theorem c4_balance_amended_witness :
    countStartTag (dS "li")
        (printIndexXhtml false (dS "idx") (dS "h2") [] (dS "toc")
          [⟨dS "apple ! red", dS "apple ! red", dS "l1", true⟩,
           ⟨dS "apple", dS "apple", dS "l2", true⟩,
           ⟨dS "banana", dS "banana", dS "l3", true⟩]) =
      countEndTag (dS "li")
        (printIndexXhtml false (dS "idx") (dS "h2") [] (dS "toc")
          [⟨dS "apple ! red", dS "apple ! red", dS "l1", true⟩,
           ⟨dS "apple", dS "apple", dS "l2", true⟩,
           ⟨dS "banana", dS "banana", dS "l3", true⟩]) :=
  (c4_balance_amended (dS "h2") [] (dS "toc")
    [⟨dS "apple ! red", dS "apple ! red", dS "l1", true⟩,
     ⟨dS "apple", dS "apple", dS "l2", true⟩,
     ⟨dS "banana", dS "banana", dS "l3", true⟩]
    (by decide) (by decide) (by decide) (by decide) (by decide)).1
